import Mathlib

/-!
fhevm-go precompile dispatch: a shallow embedding.

Embedding of `fhevm/precompiles.go`: the selector dispatch (`FheLibRequiredGas`,
`FheLibRun`), the per-operation gas functions and run functions, and the
optimistic-require evaluation; of `fhevm/tee_pad_gas.go`; and of the method table and
the selector lookup of `fhevm/teelib.go`.

Conventions of the embedding.

* A Go byte is `Fin 256`, a `[]byte` is a `List Byte`, the nil slice is `[]`.
* A Go `uint64` is a `Nat`; `big.Int.Uint64()` is reduction modulo `2 ^ 64`.
* A Go `error` is its message; a pair `(T, error)` is `T × Option error`, and a
  pair `(*T, error)` whose pointer is nil exactly on error is `Except error T`.
* A function that writes to the execution context returns the context after the
  call next to its Go results. A function that only reads it is a plain function.
* The context carries one ghost field, `engineCalls`: the calls made to the
  ciphertext engine, oldest first. It is written by the embedding at each engine
  call of the source and read by no translated function.
* Logging is not modelled.
-/

namespace fhevm

/-! ## Bytes, hashes, integers -/

abbrev Byte := Fin 256

/-- Go error values, identified with their message. -/
abbrev error := String

/-- The type `fheUintType` of the source is a `uint8`. -/
abbrev fheUintType := Byte

/-- A `common.Hash`: exactly 32 bytes. -/
structure Hash where
  bytes : List Byte
  size : bytes.length = 32
deriving DecidableEq, Repr

/-- A `common.Address`, kept as its bytes. -/
abbrev Address := List Byte

/-- The Go slice expression `b[lo:hi]`. -/
def slice (b : List Byte) (lo hi : Nat) : List Byte := (b.take hi).drop lo

/-- Modelled from the spec: minInt is declared outside the translated files; it is
the minimum of two ints. -/
def minInt (a b : Nat) : Nat := if a < b then a else b

/-- The unsigned big-endian integer held in a byte string (`big.Int.SetBytes`). -/
def SetBytes (b : List Byte) : Nat := b.foldl (fun acc x => acc * 256 + x.val) 0

/-- The function `binary.BigEndian.Uint32` on a 4-byte slice. -/
def Uint32 (b : List Byte) : Nat := SetBytes (slice b 0 4)

/-- The method `big.Int.Uint64` on a non-negative integer: the low 64 bits. -/
def Uint64 (n : Nat) : Nat := n % 2 ^ 64

/-- The method `big.Int.FillBytes` into a buffer of `len` bytes: the big-endian
digits of `n`, zero-extended on the left. -/
def FillBytes (n len : Nat) : List Byte :=
  (List.range len).map (fun i => Fin.ofNat (n / 256 ^ (len - 1 - i)))

/-- The function `common.BytesToHash`: the last 32 bytes when the input is longer,
zero-padded on the left when it is shorter. -/
def BytesToHash (b : List Byte) : Hash :=
  ⟨List.replicate (32 - (b.drop (b.length - 32)).length) 0 ++ b.drop (b.length - 32), by
    simp only [List.length_append, List.length_replicate, List.length_drop]
    omega⟩

/-! ## Ciphertexts, the engine, the execution context -/

/-- Modelled from the spec: the struct tfheCiphertext is declared outside the
translated files. "Ciphertext: opaque payload plus a numeric type tag". -/
structure tfheCiphertext where
  serialization : List Byte
  fheUintType : fheUintType
deriving DecidableEq, Repr

/-- Modelled from the spec: the struct verifiedCiphertext is declared outside the
translated files; the source reads its field `ciphertext` only. -/
structure verifiedCiphertext where
  ciphertext : tfheCiphertext
deriving DecidableEq, Repr

/-- One call to the ciphertext engine (ghost record). -/
inductive EngineCall where
  | add (lhs rhs : tfheCiphertext)
  | scalarAdd (lhs : tfheCiphertext) (rhs : Nat)
  | bitand (lhs rhs : tfheCiphertext)
  | castTo (ct : tfheCiphertext) (castToType : fheUintType)
  | trivialEncrypt (value : Nat) (toType : fheUintType)
  | decrypt (ct : tfheCiphertext)
deriving DecidableEq, Repr

/-- What the translated functions call but do not define: the methods of
`tfheCiphertext` (the ciphertext engine), the content hash, the contents of
placeholder ciphertexts, the public-key material `pksBytes` and `pksHash`, and the
helper `toEVMBytes`. All are parameters of the embedding. -/
structure Tfhe where
  add : tfheCiphertext → tfheCiphertext → Except error tfheCiphertext
  scalarAdd : tfheCiphertext → Nat → Except error tfheCiphertext
  bitand : tfheCiphertext → tfheCiphertext → Except error tfheCiphertext
  castTo : tfheCiphertext → fheUintType → Except error tfheCiphertext
  trivialEncrypt : Nat → fheUintType → tfheCiphertext
  decrypt : tfheCiphertext → Nat × Option error
  getHash : tfheCiphertext → Hash
  placeholder : Nat → List Byte
  pksBytes : List Byte
  pksHash : Hash
  toEVMBytes : List Byte → List Byte

/-- The constants of package `params` read by the gas functions. -/
structure Params where
  FheUint8AddSubGas : Nat
  FheUint16AddSubGas : Nat
  FheUint32AddSubGas : Nat
  FheUint8DecryptGas : Nat
  FheUint16DecryptGas : Nat
  FheUint32DecryptGas : Nat
  FheUint8TrivialEncryptGas : Nat
  FheUint16TrivialEncryptGas : Nat
  FheUint32TrivialEncryptGas : Nat
  FheCastGas : Nat
  FhePubKeyGas : Nat
deriving DecidableEq, Repr

/-- The result of `GetFhevmData()`: the verified-ciphertext registry (a Go map,
kept as an association list read first-match), the optimistic-require list, and
the counter from which placeholder ciphertexts take their contents. -/
structure FhevmData where
  verifiedCiphertexts : List (Hash × verifiedCiphertext)
  optimisticRequires : List tfheCiphertext
  nextCiphertextHashOnGasEst : Nat
deriving DecidableEq, Repr

/-- The execution context, as far as the translated functions read it. -/
structure EVMEnvironment where
  fhevmData : FhevmData
  committing : Bool
  ethCall : Bool
  state : Address → Hash → Hash
  gasLimit : Nat
  engineCalls : List EngineCall

def EVMEnvironment.IsCommitting (environment : EVMEnvironment) : Bool := environment.committing

def EVMEnvironment.IsEthCall (environment : EVMEnvironment) : Bool := environment.ethCall

def EVMEnvironment.GetState (environment : EVMEnvironment) (addr : Address) (slot : Hash) : Hash :=
  environment.state addr slot

def EVMEnvironment.GasLimit (environment : EVMEnvironment) : Nat := environment.gasLimit

/-- Ghost: record an engine call. -/
def EVMEnvironment.record (environment : EVMEnvironment) (c : EngineCall) : EVMEnvironment :=
  { environment with engineCalls := environment.engineCalls ++ [c] }

/-- What a run function returns: the Go pair `([]byte, error)` and the context after
the call. -/
abbrev RunResult := (List Byte × Option error) × EVMEnvironment

/-! ## Declarations the translated file uses from the rest of the package -/

/-- Modelled from the spec: the constants FheUint8, FheUint16, FheUint32 are declared
outside the translated files; they are the members of the "fixed enumeration of
encrypted integer widths", numbered in declaration order. -/
def FheUint8 : fheUintType := 0

/-- Modelled from the spec: see `FheUint8`. -/
def FheUint16 : fheUintType := 1

/-- Modelled from the spec: see `FheUint8`. -/
def FheUint32 : fheUintType := 2

/-- Modelled from the spec: isValidType is declared outside the translated files.
"a target-type byte that must be validated against the fixed type enumeration". -/
def isValidType (t : Byte) : Bool :=
  t == FheUint8 || t == FheUint16 || t == FheUint32

/-- Modelled from the spec: getVerifiedCiphertext is declared outside the translated
files. The registry is a "mapping from a 32-byte handle to the ciphertext it refers
to"; a handle absent from it gives nil. -/
def getVerifiedCiphertext (environment : EVMEnvironment) (ciphertextHash : Hash) :
    Option verifiedCiphertext :=
  environment.fhevmData.verifiedCiphertexts.lookup ciphertextHash

/-- Modelled from the spec: importCiphertext is declared outside the translated
files. A result "is imported into the Registry under its content hash". -/
def importCiphertext (tfhe : Tfhe) (environment : EVMEnvironment) (ct : tfheCiphertext) :
    EVMEnvironment :=
  { environment with
    fhevmData := { environment.fhevmData with
      verifiedCiphertexts :=
        (tfhe.getHash ct, ⟨ct⟩) :: environment.fhevmData.verifiedCiphertexts } }

/-- Modelled from the spec: importRandomCiphertext is declared outside the translated
files. It "synthesizes and imports a placeholder ciphertext of the correct output
type (its content is irrelevant to later logic, only its type and presence matter)"
and returns its handle. -/
def importRandomCiphertext (tfhe : Tfhe) (environment : EVMEnvironment) (t : fheUintType) :
    List Byte × EVMEnvironment :=
  let ct : tfheCiphertext :=
    { serialization := tfhe.placeholder environment.fhevmData.nextCiphertextHashOnGasEst,
      fheUintType := t }
  let environment := importCiphertext tfhe environment ct
  ((tfhe.getHash ct).bytes,
    { environment with
      fhevmData := { environment.fhevmData with
        nextCiphertextHashOnGasEst := environment.fhevmData.nextCiphertextHashOnGasEst + 1 } })

/-- Modelled from the spec: isScalarOp is declared outside the translated files. The
binary payload is "65 bytes: handleA(32) + operandB(32) + scalarFlag(1)", "missing
bytes are a length error", and the scalar form "is carried by a single trailing flag
byte". -/
def isScalarOp (input : List Byte) : Bool × Option error :=
  if input.length ≠ 65 then
    (false, some "input needs to contain two 256-bit sized values and 1 8-bit value")
  else
    (input.getD 64 0 == 1, none)

/-- Modelled from the spec: get2VerifiedOperands is declared outside the translated
files. "both 32-byte operand slots must resolve to entries in the Registry". -/
def get2VerifiedOperands (environment : EVMEnvironment) (input : List Byte) :
    Except error (verifiedCiphertext × verifiedCiphertext) :=
  if input.length ≠ 65 then
    .error "input needs to contain two 256-bit sized values and 1 8-bit value"
  else
    match getVerifiedCiphertext environment (BytesToHash (slice input 0 32)) with
    | none => .error "unverified ciphertext handle"
    | some lhs =>
      match getVerifiedCiphertext environment (BytesToHash (slice input 32 64)) with
      | none => .error "unverified ciphertext handle"
      | some rhs => .ok (lhs, rhs)

/-- Modelled from the spec: getScalarOperands is declared outside the translated
files. "the second operand is interpreted as a raw big-endian integer (no Registry
lookup)". -/
def getScalarOperands (environment : EVMEnvironment) (input : List Byte) :
    Except error (verifiedCiphertext × Nat) :=
  if input.length ≠ 65 then
    .error "input needs to contain two 256-bit sized values and 1 8-bit value"
  else
    match getVerifiedCiphertext environment (BytesToHash (slice input 0 32)) with
    | none => .error "unverified ciphertext handle"
    | some lhs => .ok (lhs, SetBytes (slice input 32 64))

/-- Modelled from the spec: padArrayTo32Multiple is declared outside the translated
files. The output is "right-padded to the next 32-byte boundary". -/
def padArrayTo32Multiple (input : List Byte) : List Byte :=
  input ++ List.replicate ((32 - input.length % 32) % 32) 0

/-- Modelled from the spec: toEVMBytes is declared outside the translated files. It is
what `fhePubKeyRun` returns under the flag, where it returns the raw bytes otherwise;
of these two shapes the specification of the public-key retrieval says: "a caller
requesting 'as a dynamic byte array' receives the blob wrapped with a 32-byte offset
header and right-padded to a 32-byte multiple; otherwise the raw blob is returned
unwrapped", the offset word having the "value 0x20". The translated functions take
the helper from `Tfhe`; this is the instance of the reference engine. -/
def toEVMBytes (input : List Byte) : List Byte :=
  padArrayTo32Multiple ((List.replicate 32 (0 : Byte)).set 31 0x20 ++ input)

/-! ## `fhevm/precompiles.go` -/

def ErrExecutionReverted : error := "execution reverted"

/-- Modelled from the spec: makeKeccakSignature is declared outside the translated
files. "Selector = first 4 bytes of keccak-256 over the canonical ASCII signature
string"; this is its value on "fheAdd(uint256,uint256,bytes1)". -/
def signatureFheAdd : Nat := 0xf953e427

/-- Modelled from the spec: see `signatureFheAdd`; the value on
"cast(uint256,bytes1)". -/
def signatureCast : Nat := 0x4be68d20

/-- Modelled from the spec: see `signatureFheAdd`; the value on "decrypt(uint256)". -/
def signatureDecrypt : Nat := 0x5a4ee440

/-- Modelled from the spec: see `signatureFheAdd`; the value on "fhePubKey(bytes1)". -/
def signatureFhePubKey : Nat := 0xd9d47bb0

/-- Modelled from the spec: see `signatureFheAdd`; the value on
"trivialEncrypt(uint256,bytes1)". -/
def signatureTrivialEncrypt : Nat := 0xe71746b8

/-- The map `fheAddSubGasCosts`; a key that is absent reads as 0. -/
def fheAddSubGasCosts (params : Params) (t : fheUintType) : Nat :=
  if t = FheUint8 then params.FheUint8AddSubGas
  else if t = FheUint16 then params.FheUint16AddSubGas
  else if t = FheUint32 then params.FheUint32AddSubGas
  else 0

/-- The map `fheDecryptGasCosts`; a key that is absent reads as 0. -/
def fheDecryptGasCosts (params : Params) (t : fheUintType) : Nat :=
  if t = FheUint8 then params.FheUint8DecryptGas
  else if t = FheUint16 then params.FheUint16DecryptGas
  else if t = FheUint32 then params.FheUint32DecryptGas
  else 0

/-- The map `fheTrivialEncryptGasCosts`; a key that is absent reads as 0. -/
def fheTrivialEncryptGasCosts (params : Params) (t : fheUintType) : Nat :=
  if t = FheUint8 then params.FheUint8TrivialEncryptGas
  else if t = FheUint16 then params.FheUint16TrivialEncryptGas
  else if t = FheUint32 then params.FheUint32TrivialEncryptGas
  else 0

/-! ### Gas costs -/

def fheAddRequiredGas (params : Params) (environment : EVMEnvironment) (input : List Byte) : Nat :=
  match (isScalarOp input).2 with
  | some _ => 0
  | none =>
    if !(isScalarOp input).1 then
      match get2VerifiedOperands environment input with
      | .error _ => 0
      | .ok (lhs, rhs) =>
        if lhs.ciphertext.fheUintType ≠ rhs.ciphertext.fheUintType then 0
        else fheAddSubGasCosts params lhs.ciphertext.fheUintType
    else
      match getScalarOperands environment input with
      | .error _ => 0
      | .ok (lhs, _) => fheAddSubGasCosts params lhs.ciphertext.fheUintType

def castRequiredGas (params : Params) (_environment : EVMEnvironment) (input : List Byte) : Nat :=
  if input.length ≠ 33 then 0
  else params.FheCastGas

def decryptRequiredGas (params : Params) (environment : EVMEnvironment) (input : List Byte) : Nat :=
  if input.length ≠ 32 then 0
  else
    match getVerifiedCiphertext environment (BytesToHash input) with
    | none => 0
    | some ct => fheDecryptGasCosts params ct.ciphertext.fheUintType

def fhePubKeyRequiredGas (params : Params) (_accessibleState : EVMEnvironment)
    (_input : List Byte) : Nat :=
  params.FhePubKeyGas

def trivialEncryptRequiredGas (params : Params) (_accessibleState : EVMEnvironment)
    (input : List Byte) : Nat :=
  if input.length ≠ 33 then 0
  else
    let encryptToType : fheUintType := input.getD 32 0
    fheTrivialEncryptGasCosts params encryptToType

def FheLibRequiredGas (params : Params) (environment : EVMEnvironment) (input : List Byte) : Nat :=
  if input.length < 4 then 0
  else
    let signature := Uint32 (slice input 0 4)
    if signature = signatureFheAdd then
      fheAddRequiredGas params environment (slice input 4 (minInt 69 input.length))
    else if signature = signatureCast then
      castRequiredGas params environment (slice input 4 (minInt 37 input.length))
    else if signature = signatureDecrypt then
      decryptRequiredGas params environment (slice input 4 (minInt 36 input.length))
    else if signature = signatureFhePubKey then
      fhePubKeyRequiredGas params environment (slice input 4 (minInt 5 input.length))
    else if signature = signatureTrivialEncrypt then
      trivialEncryptRequiredGas params environment (slice input 4 (minInt 37 input.length))
    else 0

/-! ### Implementations -/

def fheAddRun (tfhe : Tfhe) (environment : EVMEnvironment) (_caller _addr : Address)
    (input : List Byte) (_readOnly : Bool) : RunResult :=
  match (isScalarOp input).2 with
  | some err => (([], some err), environment)
  | none =>
    if !(isScalarOp input).1 then
      match get2VerifiedOperands environment input with
      | .error err => (([], some err), environment)
      | .ok (lhs, rhs) =>
        if lhs.ciphertext.fheUintType ≠ rhs.ciphertext.fheUintType then
          (([], some "fheAdd operand type mismatch"), environment)
        -- gas estimation: skip execution and insert a random ciphertext as a result
        else if !environment.IsCommitting && !environment.IsEthCall then
          (((importRandomCiphertext tfhe environment lhs.ciphertext.fheUintType).1, none),
            (importRandomCiphertext tfhe environment lhs.ciphertext.fheUintType).2)
        else
          match tfhe.add lhs.ciphertext rhs.ciphertext with
          | .error err =>
            (([], some err), environment.record (.add lhs.ciphertext rhs.ciphertext))
          | .ok result =>
            (((tfhe.getHash result).bytes, none),
              importCiphertext tfhe
                (environment.record (.add lhs.ciphertext rhs.ciphertext)) result)
    else
      match getScalarOperands environment input with
      | .error err => (([], some err), environment)
      | .ok (lhs, rhs) =>
        if !environment.IsCommitting && !environment.IsEthCall then
          (((importRandomCiphertext tfhe environment lhs.ciphertext.fheUintType).1, none),
            (importRandomCiphertext tfhe environment lhs.ciphertext.fheUintType).2)
        else
          match tfhe.scalarAdd lhs.ciphertext (Uint64 rhs) with
          | .error err =>
            (([], some err), environment.record (.scalarAdd lhs.ciphertext (Uint64 rhs)))
          | .ok result =>
            (((tfhe.getHash result).bytes, none),
              importCiphertext tfhe
                (environment.record (.scalarAdd lhs.ciphertext (Uint64 rhs))) result)

/-- The method call `ct.decrypt()` followed by `v.Uint64()`. -/
def decryptValue (tfhe : Tfhe) (environment : EVMEnvironment) (ct : tfheCiphertext) :
    (Nat × Option error) × EVMEnvironment :=
  ((Uint64 (tfhe.decrypt ct).1, (tfhe.decrypt ct).2), environment.record (.decrypt ct))

/-- The loop `for i := 1; i < len; i++` of `evaluateRemainingOptimisticRequires`,
run over `requires[1:]`: it stops at the first `bitand` that fails. -/
def bitandLoop (tfhe : Tfhe) (environment : EVMEnvironment) (cumulative : tfheCiphertext) :
    List tfheCiphertext → Except error tfheCiphertext × EVMEnvironment
  | [] => (.ok cumulative, environment)
  | r :: rest =>
    match tfhe.bitand cumulative r with
    | .error err => (.error err, environment.record (.bitand cumulative r))
    | .ok c => bitandLoop tfhe (environment.record (.bitand cumulative r)) c rest

/-- The local variable `requires` is a copy of the slice header held by the context.
The deferred function assigns a fresh empty slice to that local variable after the
results are computed; the field `optimisticRequires` of the context is not written
anywhere in the function. -/
def evaluateRemainingOptimisticRequires (tfhe : Tfhe) (environment : EVMEnvironment) :
    (Bool × Option error) × EVMEnvironment :=
  let requires := environment.fhevmData.optimisticRequires
  match requires with
  | cumulative :: rest =>
    -- `len != 0`
    match bitandLoop tfhe environment cumulative rest with
    | (.error err, environment) => ((false, some err), environment)
    | (.ok cumulative, environment) =>
      (((decryptValue tfhe environment cumulative).1.1 != 0,
          (decryptValue tfhe environment cumulative).1.2),
        (decryptValue tfhe environment cumulative).2)
  | [] => ((true, none), environment)

def decryptRun (tfhe : Tfhe) (environment : EVMEnvironment) (_caller _addr : Address)
    (input : List Byte) (_readOnly : Bool) : RunResult :=
  if input.length ≠ 32 then
    (([], some "decrypt input len must be 32 bytes"), environment)
  else
    match getVerifiedCiphertext environment (BytesToHash input) with
    | none => (([], some "decrypt unverified handle"), environment)
    | some ct =>
      -- gas estimation: skip decryption and return the maximum possible value
      if !environment.IsCommitting && !environment.IsEthCall then
        ((List.replicate 32 0xFF, none), environment)
      else
        -- no decryption before the optimistic requires are checked
        match (evaluateRemainingOptimisticRequires tfhe environment).1.2 with
        | some optReqErr =>
          (([], some optReqErr), (evaluateRemainingOptimisticRequires tfhe environment).2)
        | none =>
          if !(evaluateRemainingOptimisticRequires tfhe environment).1.1 then
            (([], some ErrExecutionReverted),
              (evaluateRemainingOptimisticRequires tfhe environment).2)
          else
            match (decryptValue tfhe
                (evaluateRemainingOptimisticRequires tfhe environment).2 ct.ciphertext).1.2 with
            | some err =>
              (([], some err),
                (decryptValue tfhe
                  (evaluateRemainingOptimisticRequires tfhe environment).2 ct.ciphertext).2)
            | none =>
              -- always a 32-byte big-endian integer
              ((FillBytes (decryptValue tfhe
                  (evaluateRemainingOptimisticRequires tfhe environment).2 ct.ciphertext).1.1 32,
                  none),
                (decryptValue tfhe
                  (evaluateRemainingOptimisticRequires tfhe environment).2 ct.ciphertext).2)

def castRun (tfhe : Tfhe) (environment : EVMEnvironment) (_caller _addr : Address)
    (input : List Byte) (_readOnly : Bool) : RunResult :=
  if input.length ≠ 33 then
    (([], some "cast Run() input needs to contain a ciphertext and one byte for its type"),
      environment)
  else
    match getVerifiedCiphertext environment (BytesToHash (slice input 0 32)) with
    | none => (([], some "unverified ciphertext handle"), environment)
    | some ct =>
      if !isValidType (input.getD 32 0) then
        (([], some "invalid type provided"), environment)
      else
        let castToType : fheUintType := input.getD 32 0
        if !environment.IsCommitting && !environment.IsEthCall then
          (((importRandomCiphertext tfhe environment castToType).1, none),
            (importRandomCiphertext tfhe environment castToType).2)
        else
          match tfhe.castTo ct.ciphertext castToType with
          | .error _ =>
            (([], some "cast Run() error casting ciphertext to"),
              environment.record (.castTo ct.ciphertext castToType))
          | .ok res =>
            (((tfhe.getHash res).bytes, none),
              importCiphertext tfhe
                (environment.record (.castTo ct.ciphertext castToType)) res)

/-- The address `common.BytesToAddress([]byte{93})`. -/
def fhePubKeyHashPrecompile : Address := List.replicate 19 0 ++ [93]

/-- The zero hash `common.Hash{}`. -/
def fhePubKeyHashSlot : Hash := ⟨List.replicate 32 0, rfl⟩

def fhePubKeyRun (tfhe : Tfhe) (accessibleState : EVMEnvironment) (_caller _addr : Address)
    (input : List Byte) (_readOnly : Bool) : List Byte × Option error :=
  let existing := accessibleState.GetState fhePubKeyHashPrecompile fhePubKeyHashSlot
  if existing ≠ tfhe.pksHash then
    ([], some "fhePubKey FHE public key hash doesn't match one stored in state")
  -- a single byte with the value of 1: return as an EVM array; otherwise the raw bytes
  else if input.length = 1 ∧ input.getD 0 0 = 1 then
    (tfhe.toEVMBytes tfhe.pksBytes, none)
  else
    (tfhe.pksBytes, none)

def trivialEncryptRun (tfhe : Tfhe) (accessibleState : EVMEnvironment) (_caller _addr : Address)
    (input : List Byte) (_readOnly : Bool) : RunResult :=
  if input.length ≠ 33 then
    (([], some "trivialEncrypt input len must be 33 bytes"), accessibleState)
  else
    let valueToEncrypt := SetBytes (slice input 0 32)
    let encryptToType : fheUintType := input.getD 32 0
    let ct := tfhe.trivialEncrypt valueToEncrypt encryptToType
    (((tfhe.getHash ct).bytes, none),
      importCiphertext tfhe
        (accessibleState.record (.trivialEncrypt valueToEncrypt encryptToType)) ct)

def FheLibRun (tfhe : Tfhe) (environment : EVMEnvironment) (caller addr : Address)
    (input : List Byte) (readOnly : Bool) : RunResult :=
  if input.length < 4 then
    (([], some "input must contain at least 4 bytes for method signature"), environment)
  else
    let signature := Uint32 (slice input 0 4)
    if signature = signatureFheAdd then
      fheAddRun tfhe environment caller addr (slice input 4 (minInt 69 input.length)) readOnly
    else if signature = signatureCast then
      castRun tfhe environment caller addr (slice input 4 (minInt 37 input.length)) readOnly
    else if signature = signatureDecrypt then
      decryptRun tfhe environment caller addr (slice input 4 (minInt 36 input.length)) readOnly
    else if signature = signatureFhePubKey then
      match fhePubKeyRun tfhe environment caller addr
          (slice input 4 (minInt 5 input.length)) readOnly with
      | (precompileBytes, some err) => ((precompileBytes, some err), environment)
      | (precompileBytes, none) =>
        -- pad according to abi specification: first the offset of the dynamic bytes
        ((padArrayTo32Multiple ((List.replicate 32 (0 : Byte)).set 31 0x20 ++ precompileBytes),
            none), environment)
    else if signature = signatureTrivialEncrypt then
      trivialEncryptRun tfhe environment caller addr
        (slice input 4 (minInt 37 input.length)) readOnly
    else
      (([], some "precompile method not found"), environment)

/-! ## `fhevm/tee_pad_gas.go` -/

/-- The difference of two `uint64` values, which wraps around modulo `2 ^ 64`. -/
def subUint64 (a b : Nat) : Nat := (((a : Int) - (b : Int)) % 2 ^ 64).toNat

def teePadGasRequiredGas (environment : EVMEnvironment) (suppliedGas : Nat)
    (input : List Byte) : Nat :=
  let input := slice input 0 (minInt 32 input.length)
  let gasLimit := environment.GasLimit
  let consumedGas := subUint64 gasLimit suppliedGas
  let padTo := SetBytes input
  if consumedGas > Uint64 padTo then 0
  else subUint64 (Uint64 padTo) consumedGas

/-- The tracing span argument of the source is not modelled. -/
def teePadGasRun (environment : EVMEnvironment) (_caller _addr : Address)
    (_input : List Byte) (_readOnly : Bool) : RunResult :=
  (([], none), environment)

/-! ## Keccak-256 and method selectors -/

/-- Rotation of a 64-bit lane to the left. -/
def rotl64 (x n : Nat) : Nat := ((x <<< n) ||| (x >>> (64 - n))) % 2 ^ 64

/-- The round constants of Keccak-f[1600]. -/
def keccakRC : List Nat :=
  [0x0000000000000001, 0x0000000000008082, 0x800000000000808A, 0x8000000080008000,
   0x000000000000808B, 0x0000000080000001, 0x8000000080008081, 0x8000000000008009,
   0x000000000000008A, 0x0000000000000088, 0x0000000080008009, 0x000000008000000A,
   0x000000008000808B, 0x800000000000008B, 0x8000000000008089, 0x8000000000008003,
   0x8000000000008002, 0x8000000000000080, 0x000000000000800A, 0x800000008000000A,
   0x8000000080008081, 0x8000000000008080, 0x0000000080000001, 0x8000000080008008]

/-- One round of Keccak-f[1600] on a state of 25 lanes, the lane `(x, y)` at index
`x + 5 * y`: theta (the column parities `c`, the corrections `d`), rho and pi (the
rotated lanes `b`), chi and, on the first lane, iota with the round constant `rc`. -/
def keccakRound (A : List Nat) (rc : Nat) : List Nat :=
  match A with
  | [a0, a1, a2, a3, a4, a5, a6, a7, a8, a9, a10, a11, a12, a13, a14, a15, a16, a17, a18, a19, a20, a21, a22, a23, a24] =>
    let c0 := a0 ^^^ a5 ^^^ a10 ^^^ a15 ^^^ a20
    let c1 := a1 ^^^ a6 ^^^ a11 ^^^ a16 ^^^ a21
    let c2 := a2 ^^^ a7 ^^^ a12 ^^^ a17 ^^^ a22
    let c3 := a3 ^^^ a8 ^^^ a13 ^^^ a18 ^^^ a23
    let c4 := a4 ^^^ a9 ^^^ a14 ^^^ a19 ^^^ a24
    let d0 := c4 ^^^ rotl64 c1 1
    let d1 := c0 ^^^ rotl64 c2 1
    let d2 := c1 ^^^ rotl64 c3 1
    let d3 := c2 ^^^ rotl64 c4 1
    let d4 := c3 ^^^ rotl64 c0 1
    let b0 := rotl64 (a0 ^^^ d0) 0
    let b1 := rotl64 (a6 ^^^ d1) 44
    let b2 := rotl64 (a12 ^^^ d2) 43
    let b3 := rotl64 (a18 ^^^ d3) 21
    let b4 := rotl64 (a24 ^^^ d4) 14
    let b5 := rotl64 (a3 ^^^ d3) 28
    let b6 := rotl64 (a9 ^^^ d4) 20
    let b7 := rotl64 (a10 ^^^ d0) 3
    let b8 := rotl64 (a16 ^^^ d1) 45
    let b9 := rotl64 (a22 ^^^ d2) 61
    let b10 := rotl64 (a1 ^^^ d1) 1
    let b11 := rotl64 (a7 ^^^ d2) 6
    let b12 := rotl64 (a13 ^^^ d3) 25
    let b13 := rotl64 (a19 ^^^ d4) 8
    let b14 := rotl64 (a20 ^^^ d0) 18
    let b15 := rotl64 (a4 ^^^ d4) 27
    let b16 := rotl64 (a5 ^^^ d0) 36
    let b17 := rotl64 (a11 ^^^ d1) 10
    let b18 := rotl64 (a17 ^^^ d2) 15
    let b19 := rotl64 (a23 ^^^ d3) 56
    let b20 := rotl64 (a2 ^^^ d2) 62
    let b21 := rotl64 (a8 ^^^ d3) 55
    let b22 := rotl64 (a14 ^^^ d4) 39
    let b23 := rotl64 (a15 ^^^ d0) 41
    let b24 := rotl64 (a21 ^^^ d1) 2
    [(b0 ^^^ ((b1 ^^^ (2 ^ 64 - 1)) &&& b2)) ^^^ rc,
      b1 ^^^ ((b2 ^^^ (2 ^ 64 - 1)) &&& b3),
      b2 ^^^ ((b3 ^^^ (2 ^ 64 - 1)) &&& b4),
      b3 ^^^ ((b4 ^^^ (2 ^ 64 - 1)) &&& b0),
      b4 ^^^ ((b0 ^^^ (2 ^ 64 - 1)) &&& b1),
      b5 ^^^ ((b6 ^^^ (2 ^ 64 - 1)) &&& b7),
      b6 ^^^ ((b7 ^^^ (2 ^ 64 - 1)) &&& b8),
      b7 ^^^ ((b8 ^^^ (2 ^ 64 - 1)) &&& b9),
      b8 ^^^ ((b9 ^^^ (2 ^ 64 - 1)) &&& b5),
      b9 ^^^ ((b5 ^^^ (2 ^ 64 - 1)) &&& b6),
      b10 ^^^ ((b11 ^^^ (2 ^ 64 - 1)) &&& b12),
      b11 ^^^ ((b12 ^^^ (2 ^ 64 - 1)) &&& b13),
      b12 ^^^ ((b13 ^^^ (2 ^ 64 - 1)) &&& b14),
      b13 ^^^ ((b14 ^^^ (2 ^ 64 - 1)) &&& b10),
      b14 ^^^ ((b10 ^^^ (2 ^ 64 - 1)) &&& b11),
      b15 ^^^ ((b16 ^^^ (2 ^ 64 - 1)) &&& b17),
      b16 ^^^ ((b17 ^^^ (2 ^ 64 - 1)) &&& b18),
      b17 ^^^ ((b18 ^^^ (2 ^ 64 - 1)) &&& b19),
      b18 ^^^ ((b19 ^^^ (2 ^ 64 - 1)) &&& b15),
      b19 ^^^ ((b15 ^^^ (2 ^ 64 - 1)) &&& b16),
      b20 ^^^ ((b21 ^^^ (2 ^ 64 - 1)) &&& b22),
      b21 ^^^ ((b22 ^^^ (2 ^ 64 - 1)) &&& b23),
      b22 ^^^ ((b23 ^^^ (2 ^ 64 - 1)) &&& b24),
      b23 ^^^ ((b24 ^^^ (2 ^ 64 - 1)) &&& b20),
      b24 ^^^ ((b20 ^^^ (2 ^ 64 - 1)) &&& b21)]
  | _ => []

/-- The permutation Keccak-f[1600]: 24 rounds. -/
def keccakF (A : List Nat) : List Nat := keccakRC.foldl keccakRound A

/-- The little-endian integer held in a byte string. -/
def leNat (b : List Nat) : Nat := b.foldr (fun x acc => x + 256 * acc) 0

/-- Absorb one 136-byte block (the rate of Keccak-256) into the state. -/
def absorbBlock (A : List Nat) (block : List Nat) : List Nat :=
  keccakF ((List.range 25).map fun i =>
    A.getD i 0 ^^^ (if i < 17 then leNat ((block.drop (8 * i)).take 8) else 0))

/-- The padding of Keccak (not SHA-3): a byte 0x01, zero bytes, a last byte 0x80, up
to a multiple of 136 bytes. -/
def keccakPad (m : List Nat) : List Nat :=
  if 136 - (m.length % 136) = 1 then m ++ [0x81]
  else m ++ [0x01] ++ List.replicate (136 - (m.length % 136) - 2) 0 ++ [0x80]

/-- Absorb the first `n` blocks of a padded message. -/
def keccakAbsorb : Nat → List Nat → List Nat → List Nat
  | 0, A, _ => A
  | n + 1, A, m => keccakAbsorb n (absorbBlock A (m.take 136)) (m.drop 136)

/-- The first lane of the state after absorbing a message: the first 8 bytes of its
Keccak-256 digest, little-endian. -/
def keccak256Lane0 (m : List Nat) : Nat :=
  (keccakAbsorb (m.length / 136 + 1) (List.replicate 25 0) (keccakPad m)).getD 0 0

/-- Modelled from the spec: makeKeccakSignature is declared outside the translated
files. The selector is the "first 4 bytes of the keccak-256 digest of the canonical
signature string", read as a big-endian `uint32`. -/
def makeKeccakSignature (input : String) : Nat :=
  (keccak256Lane0 (input.toList.map Char.toNat) % 256) * 2 ^ 24
    + (keccak256Lane0 (input.toList.map Char.toNat) / 2 ^ 8 % 256) * 2 ^ 16
    + (keccak256Lane0 (input.toList.map Char.toNat) / 2 ^ 16 % 256) * 2 ^ 8
    + (keccak256Lane0 (input.toList.map Char.toNat) / 2 ^ 24 % 256)

/-! ## `fhevm/teelib.go` -/

/-- Modelled from the spec: the struct FheLibMethod is declared outside the translated
files. A method descriptor is "(name, declared argument shape, gasFunction,
runFunction, selector)"; the gas and run functions of the TEE methods are declared
outside the translated files too, and a descriptor holds their names. -/
structure FheLibMethod where
  name : String
  argTypes : String
  requiredGasFunction : String
  runFunction : String
deriving DecidableEq, Repr

/-- Modelled from the spec: the method Signature of FheLibMethod is declared outside
the translated files. The selector "is derived deterministically from name + argument
shape" by `makeKeccakSignature`. -/
def FheLibMethod.Signature (fheLibMethod : FheLibMethod) : Nat :=
  makeKeccakSignature (fheLibMethod.name ++ fheLibMethod.argTypes)

/-- All methods available in the teelib precompile. -/
def teelibMethods : List FheLibMethod :=
  [
    ⟨"teeEncrypt", "(uint256,bytes1)", "teeEncryptRequiredGas", "teeEncryptRun"⟩,
    ⟨"teeDecrypt", "(uint256)", "teeDecryptRequiredGas", "teeDecryptRun"⟩,
    ⟨"teeAdd", "(uint256,uint256,bytes1)", "teeAddSubRequiredGas", "teeAddRun"⟩,
    ⟨"teeSub", "(uint256,uint256,bytes1)", "teeAddSubRequiredGas", "teeSubRun"⟩,
    ⟨"teeMul", "(uint256,uint256,bytes1)", "teeMulRequiredGas", "teeMulRun"⟩,
    ⟨"teeDiv", "(uint256,uint256,bytes1)", "teeDivRequiredGas", "teeDivRun"⟩,
    ⟨"teeRem", "(uint256,uint256,bytes1)", "teeRemRequiredGas", "teeRemRun"⟩,
    ⟨"teeLe", "(uint256,uint256,bytes1)", "teeComparisonRequiredGas", "teeLeRun"⟩,
    ⟨"teeLt", "(uint256,uint256,bytes1)", "teeComparisonRequiredGas", "teeLtRun"⟩,
    ⟨"teeEq", "(uint256,uint256,bytes1)", "teeComparisonRequiredGas", "teeEqRun"⟩,
    ⟨"teeGe", "(uint256,uint256,bytes1)", "teeComparisonRequiredGas", "teeGeRun"⟩,
    ⟨"teeGt", "(uint256,uint256,bytes1)", "teeComparisonRequiredGas", "teeGtRun"⟩,
    ⟨"teeNe", "(uint256,uint256,bytes1)", "teeComparisonRequiredGas", "teeNeRun"⟩,
    ⟨"teeMin", "(uint256,uint256,bytes1)", "teeComparisonRequiredGas", "teeMinRun"⟩,
    ⟨"teeMax", "(uint256,uint256,bytes1)", "teeComparisonRequiredGas", "teeMaxRun"⟩,
    ⟨"teeSelect", "(uint256,uint256,uint256)", "teeComparisonRequiredGas", "teeSelectRun"⟩,
    ⟨"teeShl", "(uint256,uint256,bytes1)", "teeShiftRequiredGas", "teeShlRun"⟩,
    ⟨"teeShr", "(uint256,uint256,bytes1)", "teeShiftRequiredGas", "teeShrRun"⟩,
    ⟨"teeRotl", "(uint256,uint256,bytes1)", "teeShiftRequiredGas", "teeRotlRun"⟩,
    ⟨"teeRotr", "(uint256,uint256,bytes1)", "teeShiftRequiredGas", "teeRotrRun"⟩,
    ⟨"teeBitAnd", "(uint256,uint256,bytes1)", "teeBitwiseOpRequiredGas", "teeBitAndRun"⟩,
    ⟨"teeBitOr", "(uint256,uint256,bytes1)", "teeBitwiseOpRequiredGas", "teeBitOrRun"⟩,
    ⟨"teeBitXor", "(uint256,uint256,bytes1)", "teeBitwiseOpRequiredGas", "teeBitXorRun"⟩,
    ⟨"teeNeg", "(uint256)", "teeNegRequiredGas", "teeNegRun"⟩,
    ⟨"teeNot", "(uint256)", "teeNotRequiredGas", "teeNotRun"⟩,
    ⟨"teeCast", "(uint256,bytes1)", "teeCastRequiredGas", "teeCastRun"⟩
  ]

/-- The function `init`: the loop `signatureToTeeLibMethod[method.Signature()] = method`
over `teelibMethods`. The Go map is an association list read first-match, so that a
later assignment to a key hides an earlier one. -/
def init (signatureToTeeLibMethod : List (Nat × FheLibMethod)) : List (Nat × FheLibMethod) :=
  teelibMethods.foldl (fun m method => (method.Signature, method) :: m) signatureToTeeLibMethod

/-- The mapping between function signatures and the functions to call, as `init`
leaves it: the map is empty before. -/
def signatureToTeeLibMethod : List (Nat × FheLibMethod) := init []

/-- The result `(teeLibMethod, found)` is `some teeLibMethod` when found and `none`,
for `(nil, false)`, when not. -/
def GetTeeLibMethod (signature : Nat) : Option FheLibMethod :=
  signatureToTeeLibMethod.lookup signature

/-! ## Specification-side definitions -/

/-- The reduction the specification describes: the left fold of the pending
conditions with the homomorphic AND, in list order, failing at the first AND that
fails. -/
def andFold (tfhe : Tfhe) (r0 : tfheCiphertext) (rs : List tfheCiphertext) :
    Except error tfheCiphertext :=
  rs.foldlM (fun c r => tfhe.bitand c r) r0

/-- The ciphertexts on which `decrypt` was invoked, oldest first. -/
def decryptCalls (calls : List EngineCall) : List tfheCiphertext :=
  calls.filterMap (fun c => match c with
    | .decrypt ct => some ct
    | _ => none)

/-- The type tag a handle resolves to in the registry of a context, if any. -/
def typeTag (environment : EVMEnvironment) (h : Hash) : Option fheUintType :=
  (getVerifiedCiphertext environment h).map (fun ct => ct.ciphertext.fheUintType)

/-- The fixed payload length of the operation a selector names (the table of
canonical payload shapes of the specification). -/
def payloadLength (signature : Nat) : Option Nat :=
  if signature = signatureFheAdd then some 65
  else if signature = signatureCast then some 33
  else if signature = signatureDecrypt then some 32
  else if signature = signatureFhePubKey then some 1
  else if signature = signatureTrivialEncrypt then some 33
  else none

/-! ## A reference engine and sample contexts

Used to instantiate the theorems at concrete inputs. -/

/-- An engine that keeps plaintexts in the clear: a ciphertext is the big-endian
encoding of its plaintext, `bitand` is the bitwise AND of the plaintexts. -/
def clearTfhe : Tfhe where
  add a b := .ok ⟨FillBytes (SetBytes a.serialization + SetBytes b.serialization) 8, a.fheUintType⟩
  scalarAdd a n := .ok ⟨FillBytes (SetBytes a.serialization + n) 8, a.fheUintType⟩
  bitand a b := .ok ⟨FillBytes (SetBytes a.serialization &&& SetBytes b.serialization) 8, a.fheUintType⟩
  castTo a t := .ok ⟨a.serialization, t⟩
  trivialEncrypt v t := ⟨FillBytes v 8, t⟩
  decrypt a := (SetBytes a.serialization, none)
  getHash a := BytesToHash (a.fheUintType :: a.serialization)
  placeholder n := FillBytes n 8
  pksBytes := [1, 2, 3]
  pksHash := BytesToHash [7]
  toEVMBytes b := toEVMBytes b

/-- An engine whose calls all fail. -/
def brokenTfhe : Tfhe :=
  { clearTfhe with
    bitand := fun _ _ => .error "bitand failed"
    decrypt := fun _ => (0, some "decrypt failed") }

/-- The encryption of 1 under `clearTfhe`, of type `FheUint8`. -/
def ctOne : tfheCiphertext := clearTfhe.trivialEncrypt 1 FheUint8

/-- The encryption of 0 under `clearTfhe`, of type `FheUint8`. -/
def ctZero : tfheCiphertext := clearTfhe.trivialEncrypt 0 FheUint8

/-- The encryption of 5 under `clearTfhe`, of type `FheUint16`. -/
def ctFive16 : tfheCiphertext := clearTfhe.trivialEncrypt 5 FheUint16

/-- A committing context whose registry holds `ctOne` and `ctFive16` under their
content hashes, with the given pending requires, and whose state stores the
public-key hash of `clearTfhe`. -/
def sampleEnv (requires : List tfheCiphertext) : EVMEnvironment where
  fhevmData :=
    { verifiedCiphertexts :=
        [(clearTfhe.getHash ctOne, ⟨ctOne⟩), (clearTfhe.getHash ctFive16, ⟨ctFive16⟩)]
      optimisticRequires := requires
      nextCiphertextHashOnGasEst := 0 }
  committing := true
  ethCall := false
  state := fun _ _ => clearTfhe.pksHash
  gasLimit := 100
  engineCalls := []

/-- A context in estimation mode with a pending require, whose registry has the
handles of `sampleEnv` bound to other ciphertexts of the same types. -/
def sampleEnvOther : EVMEnvironment where
  fhevmData :=
    { verifiedCiphertexts :=
        [(clearTfhe.getHash ctOne, ⟨ctZero⟩),
          (clearTfhe.getHash ctFive16, ⟨clearTfhe.trivialEncrypt 9 FheUint16⟩)]
      optimisticRequires := [ctOne]
      nextCiphertextHashOnGasEst := 7 }
  committing := false
  ethCall := false
  state := fun _ _ => fhePubKeyHashSlot
  gasLimit := 100
  engineCalls := [.decrypt ctOne]

/-- A price table with every entry nonzero. -/
def sampleParams : Params where
  FheUint8AddSubGas := 120
  FheUint16AddSubGas := 150
  FheUint32AddSubGas := 180
  FheUint8DecryptGas := 600
  FheUint16DecryptGas := 700
  FheUint32DecryptGas := 800
  FheUint8TrivialEncryptGas := 100
  FheUint16TrivialEncryptGas := 200
  FheUint32TrivialEncryptGas := 300
  FheCastGas := 200
  FhePubKeyGas := 2

/-- A run result that is the import of a ciphertext of type `t` made without any
engine call: no error, the record of engine calls as in the context `environment`
before the call, and the output bytes are the handle of a ciphertext of type `t` that
this handle resolves to in the registry after the call. -/
def importsWithoutEngine (tfhe : Tfhe) (environment : EVMEnvironment) (r : RunResult)
    (t : fheUintType) : Prop :=
  r.1.2 = none ∧ r.2.engineCalls = environment.engineCalls
    ∧ ∃ ct : tfheCiphertext, ct.fheUintType = t ∧ r.1.1 = (tfhe.getHash ct).bytes
      ∧ getVerifiedCiphertext r.2 (BytesToHash r.1.1) = some ⟨ct⟩

/-! ## Lemmas on the optimistic-require evaluation -/

theorem bitandLoop_fst (tfhe : Tfhe) (environment : EVMEnvironment) (c : tfheCiphertext)
    (rs : List tfheCiphertext) :
    (bitandLoop tfhe environment c rs).1 = andFold tfhe c rs := by
  induction rs generalizing environment c with
  | nil => rfl
  | cons r rest ih =>
    simp only [bitandLoop, andFold, List.foldlM_cons]
    cases h : tfhe.bitand c r with
    | error e => rfl
    | ok c1 => exact ih _ c1

theorem bitandLoop_snd (tfhe : Tfhe) (environment : EVMEnvironment) (c : tfheCiphertext)
    (rs : List tfheCiphertext) :
    ∃ calls, (bitandLoop tfhe environment c rs).2
        = { environment with engineCalls := environment.engineCalls ++ calls }
      ∧ decryptCalls calls = [] := by
  induction rs generalizing environment c with
  | nil => exact ⟨[], by simp [bitandLoop], rfl⟩
  | cons r rest ih =>
    simp only [bitandLoop]
    cases h : tfhe.bitand c r with
    | error e => exact ⟨[.bitand c r], rfl, rfl⟩
    | ok c1 =>
      obtain ⟨calls, h1, h2⟩ := ih (environment.record (.bitand c r)) c1
      refine ⟨.bitand c r :: calls, ?_, ?_⟩
      · rw [h1]
        simp only [EVMEnvironment.record, List.append_assoc, List.singleton_append]
      · simpa [decryptCalls] using h2

theorem evaluate_nil (tfhe : Tfhe) (environment : EVMEnvironment)
    (h : environment.fhevmData.optimisticRequires = []) :
    evaluateRemainingOptimisticRequires tfhe environment = ((true, none), environment) := by
  simp only [evaluateRemainingOptimisticRequires, h]

theorem evaluate_ok (tfhe : Tfhe) (environment : EVMEnvironment) (r0 c : tfheCiphertext)
    (rs : List tfheCiphertext) (h : environment.fhevmData.optimisticRequires = r0 :: rs)
    (hfold : andFold tfhe r0 rs = .ok c) :
    evaluateRemainingOptimisticRequires tfhe environment
      = ((Uint64 (tfhe.decrypt c).1 != 0, (tfhe.decrypt c).2),
          (bitandLoop tfhe environment r0 rs).2.record (.decrypt c)) := by
  have h1 := bitandLoop_fst tfhe environment r0 rs
  rw [hfold] at h1
  simp only [evaluateRemainingOptimisticRequires, h]
  rcases hb : bitandLoop tfhe environment r0 rs with ⟨res, env1⟩
  rw [hb] at h1
  simp only at h1
  subst h1
  simp only [decryptValue]

theorem evaluate_error (tfhe : Tfhe) (environment : EVMEnvironment) (r0 : tfheCiphertext)
    (rs : List tfheCiphertext) (e : error)
    (h : environment.fhevmData.optimisticRequires = r0 :: rs)
    (hfold : andFold tfhe r0 rs = .error e) :
    evaluateRemainingOptimisticRequires tfhe environment
      = ((false, some e), (bitandLoop tfhe environment r0 rs).2) := by
  have h1 := bitandLoop_fst tfhe environment r0 rs
  rw [hfold] at h1
  simp only [evaluateRemainingOptimisticRequires, h]
  rcases hb : bitandLoop tfhe environment r0 rs with ⟨res, env1⟩
  rw [hb] at h1
  simp only at h1
  subst h1
  rfl

/-- The evaluation changes nothing in the context but the ghost record of engine
calls. -/
theorem evaluate_frame (tfhe : Tfhe) (environment : EVMEnvironment) :
    ∃ calls, (evaluateRemainingOptimisticRequires tfhe environment).2
      = { environment with engineCalls := environment.engineCalls ++ calls } := by
  cases h : environment.fhevmData.optimisticRequires with
  | nil =>
    rw [evaluate_nil tfhe environment h]
    exact ⟨[], by simp⟩
  | cons r0 rs =>
    obtain ⟨calls, h1, _⟩ := bitandLoop_snd tfhe environment r0 rs
    cases hf : andFold tfhe r0 rs with
    | error e =>
      rw [evaluate_error tfhe environment r0 rs e h hf]
      exact ⟨calls, h1⟩
    | ok c =>
      rw [evaluate_ok tfhe environment r0 c rs h hf]
      refine ⟨calls ++ [.decrypt c], ?_⟩
      rw [h1]
      simp only [EVMEnvironment.record, List.append_assoc]

theorem decryptCalls_append (xs ys : List EngineCall) :
    decryptCalls (xs ++ ys) = decryptCalls xs ++ decryptCalls ys := by
  simp [decryptCalls, List.filterMap_append]

theorem evaluate_ok_decryptCalls (tfhe : Tfhe) (environment : EVMEnvironment)
    (r0 c : tfheCiphertext) (rs : List tfheCiphertext)
    (h : environment.fhevmData.optimisticRequires = r0 :: rs)
    (hfold : andFold tfhe r0 rs = .ok c) :
    decryptCalls (evaluateRemainingOptimisticRequires tfhe environment).2.engineCalls
      = decryptCalls environment.engineCalls ++ [c] := by
  obtain ⟨calls, h1, h2⟩ := bitandLoop_snd tfhe environment r0 rs
  rw [evaluate_ok tfhe environment r0 c rs h hfold, h1]
  simp only [EVMEnvironment.record, decryptCalls_append, h2, List.append_nil]
  rfl

theorem evaluate_error_decryptCalls (tfhe : Tfhe) (environment : EVMEnvironment)
    (r0 : tfheCiphertext) (rs : List tfheCiphertext) (e : error)
    (h : environment.fhevmData.optimisticRequires = r0 :: rs)
    (hfold : andFold tfhe r0 rs = .error e) :
    decryptCalls (evaluateRemainingOptimisticRequires tfhe environment).2.engineCalls
      = decryptCalls environment.engineCalls := by
  obtain ⟨calls, h1, h2⟩ := bitandLoop_snd tfhe environment r0 rs
  rw [evaluate_error tfhe environment r0 rs e h hfold, h1]
  simp only [decryptCalls_append, h2, List.append_nil]

theorem not_estimating (environment : EVMEnvironment)
    (hmode : environment.IsCommitting = true ∨ environment.IsEthCall = true) :
    (!environment.IsCommitting && !environment.IsEthCall) = false := by
  rcases hmode with h | h <;> simp [h]

/-! ## The optimistic-require list after an evaluation -/

/-- C1 (the code at a failing input): one condition is pending; the evaluation
succeeds with `true`, and afterwards the same condition is still pending in the
context: the list is not empty. -/
theorem evaluate_leaves_requires_pending :
    (evaluateRemainingOptimisticRequires clearTfhe (sampleEnv [ctOne])).1 = (true, none)
    ∧ (evaluateRemainingOptimisticRequires clearTfhe
        (sampleEnv [ctOne])).2.fhevmData.optimisticRequires = [ctOne]
    ∧ (evaluateRemainingOptimisticRequires clearTfhe
        (sampleEnv [ctOne])).2.fhevmData.optimisticRequires ≠ [] := by
  decide

/-! ## What the evaluation computes -/

/-- C2: on an empty require list `evaluateRemainingOptimisticRequires` returns
`(true, nil)` and leaves the context, the record of engine calls included, as it
was (no decrypt). On a non-empty list `r0 :: rs` whose left fold with `bitand`, in
list order, is the ciphertext `c`, it invokes decrypt exactly once, on `c`, and its
boolean is true exactly when the decrypted plaintext is nonzero; when a `bitand` of
the fold fails, it returns `(false, err)` without any decrypt. In particular, for an
engine whose `bitand` decrypts to the bitwise AND of the operands' plaintexts, the
list of plaintexts `[1, 1]` evaluates to true and `[1, 0]` to false. -/
theorem evaluate_is_and_fold (tfhe : Tfhe) (environment : EVMEnvironment) :
    (environment.fhevmData.optimisticRequires = [] →
      evaluateRemainingOptimisticRequires tfhe environment = ((true, none), environment))
    ∧ (∀ r0 rs c, environment.fhevmData.optimisticRequires = r0 :: rs →
        andFold tfhe r0 rs = .ok c →
        (evaluateRemainingOptimisticRequires tfhe environment).1
            = (Uint64 (tfhe.decrypt c).1 != 0, (tfhe.decrypt c).2)
          ∧ decryptCalls (evaluateRemainingOptimisticRequires tfhe environment).2.engineCalls
            = decryptCalls environment.engineCalls ++ [c])
    ∧ (∀ r0 rs e, environment.fhevmData.optimisticRequires = r0 :: rs →
        andFold tfhe r0 rs = .error e →
        (evaluateRemainingOptimisticRequires tfhe environment).1 = (false, some e)
          ∧ decryptCalls (evaluateRemainingOptimisticRequires tfhe environment).2.engineCalls
            = decryptCalls environment.engineCalls)
    ∧ (∀ a b z, environment.fhevmData.optimisticRequires = [a, b] →
        tfhe.bitand a b = .ok z →
        tfhe.decrypt z = ((tfhe.decrypt a).1 &&& (tfhe.decrypt b).1, none) →
        ((tfhe.decrypt a).1 = 1 → (tfhe.decrypt b).1 = 1 →
          (evaluateRemainingOptimisticRequires tfhe environment).1 = (true, none))
        ∧ ((tfhe.decrypt a).1 = 1 → (tfhe.decrypt b).1 = 0 →
          (evaluateRemainingOptimisticRequires tfhe environment).1 = (false, none))) := by
  refine ⟨evaluate_nil tfhe environment, ?_, ?_, ?_⟩
  · intro r0 rs c h hfold
    refine ⟨?_, evaluate_ok_decryptCalls tfhe environment r0 c rs h hfold⟩
    rw [evaluate_ok tfhe environment r0 c rs h hfold]
  · intro r0 rs e h hfold
    refine ⟨?_, evaluate_error_decryptCalls tfhe environment r0 rs e h hfold⟩
    rw [evaluate_error tfhe environment r0 rs e h hfold]
  · intro a b z h hz hdec
    have hfold : andFold tfhe a [b] = .ok z := by
      simp only [andFold, List.foldlM_cons, List.foldlM_nil, hz]
      rfl
    have hev := evaluate_ok tfhe environment a z [b] h hfold
    constructor
    · intro ha hb
      rw [hev, hdec, ha, hb]
      rfl
    · intro ha hb
      rw [hev, hdec, ha, hb]
      rfl

/-- C2 at a concrete input: under the clear engine the pending list `[1, 0]`
evaluates to false, the list `[1, 1]` to true, and the only decrypt of the first
evaluation is on the AND of the two conditions. -/
theorem evaluate_is_and_fold_witness :
    (evaluateRemainingOptimisticRequires clearTfhe (sampleEnv [ctOne, ctZero])).1 = (false, none)
    ∧ decryptCalls
        (evaluateRemainingOptimisticRequires clearTfhe (sampleEnv [ctOne, ctZero])).2.engineCalls
      = [ctZero]
    ∧ (evaluateRemainingOptimisticRequires clearTfhe (sampleEnv [ctOne, ctOne])).1 = (true, none) :=
  ⟨((evaluate_is_and_fold clearTfhe (sampleEnv [ctOne, ctZero])).2.2.2
      ctOne ctZero ctZero rfl rfl rfl).2 rfl rfl,
    ((evaluate_is_and_fold clearTfhe (sampleEnv [ctOne, ctZero])).2.1
      ctOne [ctZero] ctZero rfl rfl).2,
    ((evaluate_is_and_fold clearTfhe (sampleEnv [ctOne, ctOne])).2.2.2
      ctOne ctOne ctOne rfl rfl rfl).1 rfl rfl⟩

/-! ## Decrypt behind a pending require -/

/-- C3: in StaticCall or Committing mode, on a 32-byte handle that resolves in the
registry: when the pending requires reduce to a ciphertext `c` whose plaintext is
zero, `decryptRun` returns `ErrExecutionReverted` with no output bytes; the context
after the call is the one left by the evaluation of the requires, so the only
decrypt made is the one on `c`, none is made for the requested ciphertext. When the
evaluation of the requires fails with an error, `decryptRun` returns that error with
no output bytes and again makes no engine call beyond those of the evaluation. -/
theorem decryptRun_reverts_on_false_require (tfhe : Tfhe) (environment : EVMEnvironment)
    (caller addr : Address) (input : List Byte) (readOnly : Bool) (ct : verifiedCiphertext)
    (hlen : input.length = 32)
    (hct : getVerifiedCiphertext environment (BytesToHash input) = some ct)
    (hmode : environment.IsCommitting = true ∨ environment.IsEthCall = true) :
    (∀ r0 rs c, environment.fhevmData.optimisticRequires = r0 :: rs →
        andFold tfhe r0 rs = .ok c → (tfhe.decrypt c).2 = none →
        Uint64 (tfhe.decrypt c).1 = 0 →
        decryptRun tfhe environment caller addr input readOnly
            = (([], some ErrExecutionReverted),
                (evaluateRemainingOptimisticRequires tfhe environment).2)
          ∧ decryptCalls (decryptRun tfhe environment caller addr input readOnly).2.engineCalls
            = decryptCalls environment.engineCalls ++ [c])
    ∧ (∀ e, (evaluateRemainingOptimisticRequires tfhe environment).1.2 = some e →
        decryptRun tfhe environment caller addr input readOnly
          = (([], some e), (evaluateRemainingOptimisticRequires tfhe environment).2)) := by
  have hm := not_estimating environment hmode
  constructor
  · intro r0 rs c h hfold herr hzero
    have hev := evaluate_ok tfhe environment r0 c rs h hfold
    have hcalls := evaluate_ok_decryptCalls tfhe environment r0 c rs h hfold
    have hrun : decryptRun tfhe environment caller addr input readOnly
        = (([], some ErrExecutionReverted),
            (evaluateRemainingOptimisticRequires tfhe environment).2) := by
      simp only [decryptRun, hlen, hct, hm, hev, herr, hzero]
      simp
    exact ⟨hrun, by rw [hrun]; exact hcalls⟩
  · intro e he
    simp only [decryptRun, hlen, hct, hm, he]
    simp

/-- C3 at concrete inputs: the registry holds the encryption of 5, which decrypts;
with the pending requires `[1, 0]` the decrypt call reverts with no output and the
only decrypt made is on the reduced require; with an engine whose `bitand` fails the
call returns that failure. -/
theorem decryptRun_reverts_on_false_require_witness :
    (decryptRun clearTfhe (sampleEnv []) [] [] (clearTfhe.getHash ctFive16).bytes false).1
        = (FillBytes 5 32, none)
    ∧ (decryptRun clearTfhe (sampleEnv [ctOne, ctZero]) [] []
          (clearTfhe.getHash ctFive16).bytes false).1 = ([], some ErrExecutionReverted)
    ∧ decryptCalls (decryptRun clearTfhe (sampleEnv [ctOne, ctZero]) [] []
          (clearTfhe.getHash ctFive16).bytes false).2.engineCalls = [ctZero]
    ∧ (decryptRun brokenTfhe (sampleEnv [ctOne, ctZero]) [] []
          (clearTfhe.getHash ctFive16).bytes false).1 = ([], some "bitand failed") :=
  ⟨by decide,
    congrArg Prod.fst ((decryptRun_reverts_on_false_require clearTfhe (sampleEnv [ctOne, ctZero])
      [] [] (clearTfhe.getHash ctFive16).bytes false ⟨ctFive16⟩ rfl (by decide)
      (Or.inl rfl)).1 ctOne [ctZero] ctZero rfl rfl rfl rfl).1,
    ((decryptRun_reverts_on_false_require clearTfhe (sampleEnv [ctOne, ctZero])
      [] [] (clearTfhe.getHash ctFive16).bytes false ⟨ctFive16⟩ rfl (by decide)
      (Or.inl rfl)).1 ctOne [ctZero] ctZero rfl rfl rfl rfl).2,
    congrArg Prod.fst ((decryptRun_reverts_on_false_require brokenTfhe (sampleEnv [ctOne, ctZero])
      [] [] (clearTfhe.getHash ctFive16).bytes false ⟨ctFive16⟩ rfl (by decide)
      (Or.inl rfl)).2 "bitand failed" (by decide))⟩

/-! ## Dispatch lemmas -/

theorem slice_length (b : List Byte) (lo hi : Nat) :
    (slice b lo hi).length = min hi b.length - lo := by
  simp [slice]

theorem minInt_eq_min (a b : Nat) : minInt a b = min a b := by
  unfold minInt
  split <;> omega

theorem payload_length (input : List Byte) (w : Nat) :
    (slice input 4 (minInt w input.length)).length = min w input.length - 4 := by
  rw [slice_length, minInt_eq_min]
  omega

theorem FheLibRequiredGas_fheAdd (params : Params) (environment : EVMEnvironment)
    (input : List Byte) (h4 : 4 ≤ input.length)
    (hsig : Uint32 (slice input 0 4) = signatureFheAdd) :
    FheLibRequiredGas params environment input
      = fheAddRequiredGas params environment (slice input 4 (minInt 69 input.length)) := by
  simp [FheLibRequiredGas, Nat.not_lt.mpr h4, hsig]

theorem FheLibRequiredGas_cast (params : Params) (environment : EVMEnvironment)
    (input : List Byte) (h4 : 4 ≤ input.length)
    (hsig : Uint32 (slice input 0 4) = signatureCast) :
    FheLibRequiredGas params environment input
      = castRequiredGas params environment (slice input 4 (minInt 37 input.length)) := by
  simp [FheLibRequiredGas, Nat.not_lt.mpr h4, hsig, signatureCast, signatureFheAdd]

theorem FheLibRequiredGas_decrypt (params : Params) (environment : EVMEnvironment)
    (input : List Byte) (h4 : 4 ≤ input.length)
    (hsig : Uint32 (slice input 0 4) = signatureDecrypt) :
    FheLibRequiredGas params environment input
      = decryptRequiredGas params environment (slice input 4 (minInt 36 input.length)) := by
  simp [FheLibRequiredGas, Nat.not_lt.mpr h4, hsig, signatureCast, signatureFheAdd,
    signatureDecrypt]

theorem FheLibRequiredGas_fhePubKey (params : Params) (environment : EVMEnvironment)
    (input : List Byte) (h4 : 4 ≤ input.length)
    (hsig : Uint32 (slice input 0 4) = signatureFhePubKey) :
    FheLibRequiredGas params environment input
      = fhePubKeyRequiredGas params environment (slice input 4 (minInt 5 input.length)) := by
  simp [FheLibRequiredGas, Nat.not_lt.mpr h4, hsig, signatureCast, signatureFheAdd,
    signatureDecrypt, signatureFhePubKey]

theorem FheLibRequiredGas_trivialEncrypt (params : Params) (environment : EVMEnvironment)
    (input : List Byte) (h4 : 4 ≤ input.length)
    (hsig : Uint32 (slice input 0 4) = signatureTrivialEncrypt) :
    FheLibRequiredGas params environment input
      = trivialEncryptRequiredGas params environment
          (slice input 4 (minInt 37 input.length)) := by
  simp [FheLibRequiredGas, Nat.not_lt.mpr h4, hsig, signatureCast, signatureFheAdd,
    signatureDecrypt, signatureFhePubKey, signatureTrivialEncrypt]

theorem FheLibRun_fheAdd (tfhe : Tfhe) (environment : EVMEnvironment) (caller addr : Address)
    (input : List Byte) (readOnly : Bool) (h4 : 4 ≤ input.length)
    (hsig : Uint32 (slice input 0 4) = signatureFheAdd) :
    FheLibRun tfhe environment caller addr input readOnly
      = fheAddRun tfhe environment caller addr (slice input 4 (minInt 69 input.length))
          readOnly := by
  simp [FheLibRun, Nat.not_lt.mpr h4, hsig]

theorem FheLibRun_cast (tfhe : Tfhe) (environment : EVMEnvironment) (caller addr : Address)
    (input : List Byte) (readOnly : Bool) (h4 : 4 ≤ input.length)
    (hsig : Uint32 (slice input 0 4) = signatureCast) :
    FheLibRun tfhe environment caller addr input readOnly
      = castRun tfhe environment caller addr (slice input 4 (minInt 37 input.length))
          readOnly := by
  simp [FheLibRun, Nat.not_lt.mpr h4, hsig, signatureCast, signatureFheAdd]

theorem FheLibRun_decrypt (tfhe : Tfhe) (environment : EVMEnvironment) (caller addr : Address)
    (input : List Byte) (readOnly : Bool) (h4 : 4 ≤ input.length)
    (hsig : Uint32 (slice input 0 4) = signatureDecrypt) :
    FheLibRun tfhe environment caller addr input readOnly
      = decryptRun tfhe environment caller addr (slice input 4 (minInt 36 input.length))
          readOnly := by
  simp [FheLibRun, Nat.not_lt.mpr h4, hsig, signatureCast, signatureFheAdd, signatureDecrypt]

theorem FheLibRun_fhePubKey (tfhe : Tfhe) (environment : EVMEnvironment)
    (caller addr : Address) (input : List Byte) (readOnly : Bool) (h4 : 4 ≤ input.length)
    (hsig : Uint32 (slice input 0 4) = signatureFhePubKey) :
    FheLibRun tfhe environment caller addr input readOnly
      = match fhePubKeyRun tfhe environment caller addr
            (slice input 4 (minInt 5 input.length)) readOnly with
        | (precompileBytes, some err) => ((precompileBytes, some err), environment)
        | (precompileBytes, none) =>
          ((padArrayTo32Multiple
              ((List.replicate 32 (0 : Byte)).set 31 0x20 ++ precompileBytes), none),
            environment) := by
  simp [FheLibRun, Nat.not_lt.mpr h4, hsig, signatureCast, signatureFheAdd,
    signatureDecrypt, signatureFhePubKey]

theorem FheLibRun_trivialEncrypt (tfhe : Tfhe) (environment : EVMEnvironment)
    (caller addr : Address) (input : List Byte) (readOnly : Bool) (h4 : 4 ≤ input.length)
    (hsig : Uint32 (slice input 0 4) = signatureTrivialEncrypt) :
    FheLibRun tfhe environment caller addr input readOnly
      = trivialEncryptRun tfhe environment caller addr
          (slice input 4 (minInt 37 input.length)) readOnly := by
  simp [FheLibRun, Nat.not_lt.mpr h4, hsig, signatureCast, signatureFheAdd,
    signatureDecrypt, signatureFhePubKey, signatureTrivialEncrypt]

/-! ## Gas on resolution failures -/

theorem isScalarOp_short (p : List Byte) (h : p.length ≠ 65) :
    isScalarOp p
      = (false, some "input needs to contain two 256-bit sized values and 1 8-bit value") := by
  unfold isScalarOp
  rw [if_pos h]

theorem isScalarOp_clear (p : List Byte) (hlen : p.length = 65) (hflag : p.getD 64 0 ≠ 1) :
    isScalarOp p = (false, none) := by
  unfold isScalarOp
  rw [if_neg (not_not.mpr hlen)]
  have : (p.getD 64 0 == 1) = false := by simpa using hflag
  rw [this]

theorem isScalarOp_set (p : List Byte) (hlen : p.length = 65) (hflag : p.getD 64 0 = 1) :
    isScalarOp p = (true, none) := by
  unfold isScalarOp
  rw [if_neg (not_not.mpr hlen)]
  have : (p.getD 64 0 == 1) = true := by simpa using hflag
  rw [this]

theorem fheAddRequiredGas_short (params : Params) (environment : EVMEnvironment)
    (p : List Byte) (h : p.length ≠ 65) : fheAddRequiredGas params environment p = 0 := by
  simp [fheAddRequiredGas, isScalarOp_short p h]

theorem fheAddRequiredGas_lhs_absent (params : Params) (environment : EVMEnvironment)
    (p : List Byte)
    (h : getVerifiedCiphertext environment (BytesToHash (slice p 0 32)) = none) :
    fheAddRequiredGas params environment p = 0 := by
  by_cases hlen : p.length = 65
  · by_cases hflag : p.getD 64 0 = 1
    · simp [fheAddRequiredGas, isScalarOp_set p hlen hflag, getScalarOperands, hlen, h]
    · simp [fheAddRequiredGas, isScalarOp_clear p hlen hflag, get2VerifiedOperands, hlen, h]
  · exact fheAddRequiredGas_short params environment p hlen

theorem fheAddRequiredGas_rhs_absent (params : Params) (environment : EVMEnvironment)
    (p : List Byte) (hflag : p.getD 64 0 ≠ 1)
    (h : getVerifiedCiphertext environment (BytesToHash (slice p 32 64)) = none) :
    fheAddRequiredGas params environment p = 0 := by
  by_cases hlen : p.length = 65
  · cases hl : getVerifiedCiphertext environment (BytesToHash (slice p 0 32)) with
    | none => exact fheAddRequiredGas_lhs_absent params environment p hl
    | some lhs =>
      simp [fheAddRequiredGas, isScalarOp_clear p hlen hflag, get2VerifiedOperands, hlen, h, hl]
  · exact fheAddRequiredGas_short params environment p hlen

theorem fheAddRequiredGas_mismatch (params : Params) (environment : EVMEnvironment)
    (p : List Byte) (lhs rhs : verifiedCiphertext) (hflag : p.getD 64 0 ≠ 1)
    (hl : getVerifiedCiphertext environment (BytesToHash (slice p 0 32)) = some lhs)
    (hr : getVerifiedCiphertext environment (BytesToHash (slice p 32 64)) = some rhs)
    (hty : lhs.ciphertext.fheUintType ≠ rhs.ciphertext.fheUintType) :
    fheAddRequiredGas params environment p = 0 := by
  by_cases hlen : p.length = 65
  · simp [fheAddRequiredGas, isScalarOp_clear p hlen hflag, get2VerifiedOperands, hlen, hl, hr,
      hty]
  · exact fheAddRequiredGas_short params environment p hlen

/-- C4 (counterexample): a cast call whose handle is absent from the registry. The
run step fails with the unverified-handle error, yet the required gas is the cast
price, not zero. -/
theorem cast_gas_nonzero_on_unverified_handle :
    getVerifiedCiphertext (sampleEnv [])
        (BytesToHash (slice ([0x4b, 0xe6, 0x8d, 0x20] ++ FillBytes 77 32 ++ [1]) 4 36)) = none
    ∧ (FheLibRun clearTfhe (sampleEnv []) [] []
        ([0x4b, 0xe6, 0x8d, 0x20] ++ FillBytes 77 32 ++ [1]) false).1
        = ([], some "unverified ciphertext handle")
    ∧ FheLibRequiredGas sampleParams (sampleEnv [])
        ([0x4b, 0xe6, 0x8d, 0x20] ++ FillBytes 77 32 ++ [1]) = 200
    ∧ FheLibRequiredGas sampleParams (sampleEnv [])
        ([0x4b, 0xe6, 0x8d, 0x20] ++ FillBytes 77 32 ++ [1]) ≠ 0 := by
  decide

/-- C4 (amended): `FheLibRequiredGas` returns 0 on an input shorter than 4 bytes, on
an unknown selector, on a payload shorter than the fixed length of fheAdd (65), cast
(33), decrypt (32) or trivialEncrypt (33), on an fheAdd whose left handle is absent
from the registry, on a ciphertext-ciphertext fheAdd whose right handle is absent or
whose operands have different types, and on a decrypt whose handle is absent. The gas
of cast does not depend on the registry: it is `FheCastGas` for every payload of at
least 33 bytes. The gas of fhePubKey is `FhePubKeyGas` for every payload. -/
theorem FheLibRequiredGas_resolution_failure (params : Params) (environment : EVMEnvironment)
    (input : List Byte) :
    (input.length < 4 → FheLibRequiredGas params environment input = 0)
    ∧ (payloadLength (Uint32 (slice input 0 4)) = none →
        FheLibRequiredGas params environment input = 0)
    ∧ (∀ N, payloadLength (Uint32 (slice input 0 4)) = some N →
        Uint32 (slice input 0 4) ≠ signatureFhePubKey → input.length < 4 + N →
        FheLibRequiredGas params environment input = 0)
    ∧ (Uint32 (slice input 0 4) = signatureFheAdd →
        getVerifiedCiphertext environment
          (BytesToHash (slice (slice input 4 (minInt 69 input.length)) 0 32)) = none →
        FheLibRequiredGas params environment input = 0)
    ∧ (Uint32 (slice input 0 4) = signatureFheAdd →
        (slice input 4 (minInt 69 input.length)).getD 64 0 ≠ 1 →
        getVerifiedCiphertext environment
          (BytesToHash (slice (slice input 4 (minInt 69 input.length)) 32 64)) = none →
        FheLibRequiredGas params environment input = 0)
    ∧ (∀ lhs rhs, Uint32 (slice input 0 4) = signatureFheAdd →
        (slice input 4 (minInt 69 input.length)).getD 64 0 ≠ 1 →
        getVerifiedCiphertext environment
          (BytesToHash (slice (slice input 4 (minInt 69 input.length)) 0 32)) = some lhs →
        getVerifiedCiphertext environment
          (BytesToHash (slice (slice input 4 (minInt 69 input.length)) 32 64)) = some rhs →
        lhs.ciphertext.fheUintType ≠ rhs.ciphertext.fheUintType →
        FheLibRequiredGas params environment input = 0)
    ∧ (Uint32 (slice input 0 4) = signatureDecrypt →
        getVerifiedCiphertext environment
          (BytesToHash (slice input 4 (minInt 36 input.length))) = none →
        FheLibRequiredGas params environment input = 0)
    ∧ (Uint32 (slice input 0 4) = signatureCast → 37 ≤ input.length →
        FheLibRequiredGas params environment input = params.FheCastGas)
    ∧ (Uint32 (slice input 0 4) = signatureFhePubKey → 4 ≤ input.length →
        FheLibRequiredGas params environment input = params.FhePubKeyGas) := by
  have hshort : input.length < 4 → FheLibRequiredGas params environment input = 0 := by
    intro h
    simp [FheLibRequiredGas, h]
  refine ⟨hshort, ?_, ?_, ?_, ?_, ?_, ?_, ?_, ?_⟩
  · intro h
    by_cases h4 : input.length < 4
    · exact hshort h4
    · unfold payloadLength at h
      unfold FheLibRequiredGas
      rw [if_neg h4]
      simp only
      split_ifs at h ⊢
      rfl
  · intro N hN hpk hlen
    by_cases h4 : input.length < 4
    · exact hshort h4
    · have h4 : 4 ≤ input.length := Nat.le_of_not_lt h4
      unfold payloadLength at hN
      split_ifs at hN with h1 h2 h3 h5
      · cases hN
        rw [FheLibRequiredGas_fheAdd params environment input h4 h1]
        apply fheAddRequiredGas_short
        rw [payload_length]
        omega
      · cases hN
        rw [FheLibRequiredGas_cast params environment input h4 h2]
        have : (slice input 4 (minInt 37 input.length)).length ≠ 33 := by
          rw [payload_length]
          omega
        simp [castRequiredGas, this]
      · cases hN
        rw [FheLibRequiredGas_decrypt params environment input h4 h3]
        have : (slice input 4 (minInt 36 input.length)).length ≠ 32 := by
          rw [payload_length]
          omega
        simp [decryptRequiredGas, this]
      · cases hN
        rw [FheLibRequiredGas_trivialEncrypt params environment input h4 h5]
        have : (slice input 4 (minInt 37 input.length)).length ≠ 33 := by
          rw [payload_length]
          omega
        simp [trivialEncryptRequiredGas, this]
  · intro hsig h
    by_cases h4 : input.length < 4
    · exact hshort h4
    · rw [FheLibRequiredGas_fheAdd params environment input (Nat.le_of_not_lt h4) hsig]
      exact fheAddRequiredGas_lhs_absent params environment _ h
  · intro hsig hflag h
    by_cases h4 : input.length < 4
    · exact hshort h4
    · rw [FheLibRequiredGas_fheAdd params environment input (Nat.le_of_not_lt h4) hsig]
      exact fheAddRequiredGas_rhs_absent params environment _ hflag h
  · intro lhs rhs hsig hflag hl hr hty
    by_cases h4 : input.length < 4
    · exact hshort h4
    · rw [FheLibRequiredGas_fheAdd params environment input (Nat.le_of_not_lt h4) hsig]
      exact fheAddRequiredGas_mismatch params environment _ lhs rhs hflag hl hr hty
  · intro hsig h
    by_cases h4 : input.length < 4
    · exact hshort h4
    · rw [FheLibRequiredGas_decrypt params environment input (Nat.le_of_not_lt h4) hsig]
      simp only [decryptRequiredGas, h]
      split <;> rfl
  · intro hsig hlen
    rw [FheLibRequiredGas_cast params environment input (by omega) hsig]
    have : (slice input 4 (minInt 37 input.length)).length = 33 := by
      rw [payload_length]
      omega
    simp [castRequiredGas, this]
  · intro hsig h4
    rw [FheLibRequiredGas_fhePubKey params environment input h4 hsig]
    rfl

/-- C4 (amended) at concrete inputs: a decrypt call whose handle is absent from the
registry and a 10-byte fheAdd call both require zero gas; a cast call with an absent
handle requires the cast price. -/
theorem FheLibRequiredGas_resolution_failure_witness :
    FheLibRequiredGas sampleParams (sampleEnv []) ([0x5a, 0x4e, 0xe4, 0x40] ++ FillBytes 77 32) = 0
    ∧ FheLibRequiredGas sampleParams (sampleEnv []) ([0xf9, 0x53, 0xe4, 0x27] ++ FillBytes 1 6) = 0
    ∧ FheLibRequiredGas sampleParams (sampleEnv [])
        ([0x4b, 0xe6, 0x8d, 0x20] ++ FillBytes 77 32 ++ [1]) = sampleParams.FheCastGas :=
  ⟨(FheLibRequiredGas_resolution_failure sampleParams (sampleEnv [])
      ([0x5a, 0x4e, 0xe4, 0x40] ++ FillBytes 77 32)).2.2.2.2.2.2.1 (by decide) (by decide),
    (FheLibRequiredGas_resolution_failure sampleParams (sampleEnv [])
      ([0xf9, 0x53, 0xe4, 0x27] ++ FillBytes 1 6)).2.2.1 65 (by decide) (by decide) (by decide),
    (FheLibRequiredGas_resolution_failure sampleParams (sampleEnv [])
      ([0x4b, 0xe6, 0x8d, 0x20] ++ FillBytes 77 32 ++ [1])).2.2.2.2.2.2.2.1
        (by decide) (by decide)⟩

/-! ## Operands of different types -/

/-- C5: on a 65-byte fheAdd payload whose scalar flag is clear and whose two handles
resolve in the registry to ciphertexts with different type tags, `fheAddRequiredGas`
returns 0 and `fheAddRun` returns the type-mismatch error with no output bytes, in
every execution mode, and leaves the context as it was: nothing is imported into the
registry and the engine is not called. -/
theorem fheAdd_type_mismatch (params : Params) (tfhe : Tfhe) (environment : EVMEnvironment)
    (caller addr : Address) (input : List Byte) (readOnly : Bool)
    (lhs rhs : verifiedCiphertext)
    (hlen : input.length = 65) (hflag : input.getD 64 0 ≠ 1)
    (hl : getVerifiedCiphertext environment (BytesToHash (slice input 0 32)) = some lhs)
    (hr : getVerifiedCiphertext environment (BytesToHash (slice input 32 64)) = some rhs)
    (hty : lhs.ciphertext.fheUintType ≠ rhs.ciphertext.fheUintType) :
    fheAddRequiredGas params environment input = 0
    ∧ fheAddRun tfhe environment caller addr input readOnly
        = (([], some "fheAdd operand type mismatch"), environment) := by
  refine ⟨fheAddRequiredGas_mismatch params environment input lhs rhs hflag hl hr hty, ?_⟩
  simp [fheAddRun, isScalarOp_clear input hlen hflag, get2VerifiedOperands, hlen, hl, hr, hty]

/-- C5 at a concrete input: the registry holds a `FheUint8` and a `FheUint16`
ciphertext; adding them costs 0 gas and fails with the type-mismatch error. -/
theorem fheAdd_type_mismatch_witness :
    fheAddRequiredGas sampleParams (sampleEnv [])
        ((clearTfhe.getHash ctOne).bytes ++ (clearTfhe.getHash ctFive16).bytes ++ [0]) = 0
    ∧ fheAddRun clearTfhe (sampleEnv []) [] []
        ((clearTfhe.getHash ctOne).bytes ++ (clearTfhe.getHash ctFive16).bytes ++ [0]) false
        = (([], some "fheAdd operand type mismatch"), sampleEnv []) :=
  fheAdd_type_mismatch sampleParams clearTfhe (sampleEnv []) [] []
    ((clearTfhe.getHash ctOne).bytes ++ (clearTfhe.getHash ctFive16).bytes ++ [0]) false
    ⟨ctOne⟩ ⟨ctFive16⟩ (by decide) (by decide) (by decide) (by decide) (by decide)

/-! ## Zero gas and the run step -/

/-- C6 (the code at a failing input): a trivialEncrypt call whose type byte, 255, is
not a key of the price table. Every entry of the price table is nonzero, the required
gas is 0, and the run step succeeds: it returns the handle of the ciphertext it
imported. -/
theorem trivialEncrypt_zero_gas_run_succeeds :
    FheLibRequiredGas sampleParams (sampleEnv [])
        ([0xe7, 0x17, 0x46, 0xb8] ++ FillBytes 77 32 ++ [255]) = 0
    ∧ (FheLibRun clearTfhe (sampleEnv []) [] []
        ([0xe7, 0x17, 0x46, 0xb8] ++ FillBytes 77 32 ++ [255]) false).1
        = ((clearTfhe.getHash (clearTfhe.trivialEncrypt 77 255)).bytes, none)
    ∧ getVerifiedCiphertext
        (FheLibRun clearTfhe (sampleEnv []) [] []
          ([0xe7, 0x17, 0x46, 0xb8] ++ FillBytes 77 32 ++ [255]) false).2
        (clearTfhe.getHash (clearTfhe.trivialEncrypt 77 255))
        = some ⟨clearTfhe.trivialEncrypt 77 255⟩ := by
  decide

/-! ## Gas metering reads type tags only -/

theorem fheAddRequiredGas_typeTag (params : Params) (env1 env2 : EVMEnvironment)
    (p : List Byte) (h : ∀ handle, typeTag env1 handle = typeTag env2 handle) :
    fheAddRequiredGas params env1 p = fheAddRequiredGas params env2 p := by
  by_cases hlen : p.length = 65
  · have hL := h (BytesToHash (slice p 0 32))
    have hR := h (BytesToHash (slice p 32 64))
    unfold typeTag at hL hR
    by_cases hflag : p.getD 64 0 = 1
    · simp only [fheAddRequiredGas, isScalarOp_set p hlen hflag, getScalarOperands, hlen]
      cases h1 : getVerifiedCiphertext env1 (BytesToHash (slice p 0 32)) <;>
        cases h2 : getVerifiedCiphertext env2 (BytesToHash (slice p 0 32)) <;>
        simp_all
    · simp only [fheAddRequiredGas, isScalarOp_clear p hlen hflag, get2VerifiedOperands, hlen]
      cases h1 : getVerifiedCiphertext env1 (BytesToHash (slice p 0 32)) <;>
        cases h2 : getVerifiedCiphertext env2 (BytesToHash (slice p 0 32)) <;>
        cases h3 : getVerifiedCiphertext env1 (BytesToHash (slice p 32 64)) <;>
        cases h4 : getVerifiedCiphertext env2 (BytesToHash (slice p 32 64)) <;>
        simp_all
  · rw [fheAddRequiredGas_short params env1 p hlen, fheAddRequiredGas_short params env2 p hlen]

theorem decryptRequiredGas_typeTag (params : Params) (env1 env2 : EVMEnvironment)
    (p : List Byte) (h : ∀ handle, typeTag env1 handle = typeTag env2 handle) :
    decryptRequiredGas params env1 p = decryptRequiredGas params env2 p := by
  have hL := h (BytesToHash p)
  unfold typeTag at hL
  unfold decryptRequiredGas
  cases h1 : getVerifiedCiphertext env1 (BytesToHash p) <;>
    cases h2 : getVerifiedCiphertext env2 (BytesToHash p) <;>
    simp_all

/-- C7: `FheLibRequiredGas` is a function of the price table, the input and the type
tags of the registry: on two contexts whose registries resolve the same handles to
the same type tags it returns the same gas for every input, whatever the ciphertext
payloads, the execution modes and the require lists of the two contexts. The source
writes to no field of the context in any gas function, so the embedding of
`FheLibRequiredGas` returns the gas alone and the context of the caller, registry and
require list included, is the same before and after. -/
theorem FheLibRequiredGas_reads_type_tags_only (params : Params) (env1 env2 : EVMEnvironment)
    (input : List Byte) (h : ∀ handle, typeTag env1 handle = typeTag env2 handle) :
    FheLibRequiredGas params env1 input = FheLibRequiredGas params env2 input := by
  unfold FheLibRequiredGas
  simp only [fheAddRequiredGas_typeTag params env1 env2 _ h,
    decryptRequiredGas_typeTag params env1 env2 _ h, castRequiredGas, fhePubKeyRequiredGas,
    trivialEncryptRequiredGas]

theorem sampleEnv_typeTag (handle : Hash) :
    typeTag (sampleEnv []) handle = typeTag sampleEnvOther handle := by
  simp only [typeTag, getVerifiedCiphertext, sampleEnv, sampleEnvOther, List.lookup]
  cases (handle == clearTfhe.getHash ctOne) <;>
    cases (handle == clearTfhe.getHash ctFive16) <;> rfl

/-- C7 at concrete inputs: two contexts that differ in ciphertext payloads, mode,
require list and stored state give the same gas for a decrypt call, 700. -/
theorem FheLibRequiredGas_reads_type_tags_only_witness :
    FheLibRequiredGas sampleParams (sampleEnv [])
        ([0x5a, 0x4e, 0xe4, 0x40] ++ (clearTfhe.getHash ctFive16).bytes)
      = FheLibRequiredGas sampleParams sampleEnvOther
        ([0x5a, 0x4e, 0xe4, 0x40] ++ (clearTfhe.getHash ctFive16).bytes)
    ∧ FheLibRequiredGas sampleParams sampleEnvOther
        ([0x5a, 0x4e, 0xe4, 0x40] ++ (clearTfhe.getHash ctFive16).bytes) = 700 :=
  ⟨FheLibRequiredGas_reads_type_tags_only sampleParams (sampleEnv []) sampleEnvOther
      ([0x5a, 0x4e, 0xe4, 0x40] ++ (clearTfhe.getHash ctFive16).bytes) sampleEnv_typeTag,
    by decide⟩

/-! ## Inputs that name no operation -/

/-- C8: on an input shorter than 4 bytes, and on an input whose first 4 bytes are none
of the five registered selectors, `FheLibRun` returns an error with no output bytes
and leaves the context as it was (registry and require list included), and
`FheLibRequiredGas` returns 0. -/
theorem FheLibRun_rejects_unknown_selector (params : Params) (tfhe : Tfhe)
    (environment : EVMEnvironment) (caller addr : Address) (input : List Byte)
    (readOnly : Bool) :
    (input.length < 4 →
      FheLibRun tfhe environment caller addr input readOnly
          = (([], some "input must contain at least 4 bytes for method signature"),
              environment)
        ∧ FheLibRequiredGas params environment input = 0)
    ∧ (4 ≤ input.length →
        Uint32 (slice input 0 4) ≠ signatureFheAdd →
        Uint32 (slice input 0 4) ≠ signatureCast →
        Uint32 (slice input 0 4) ≠ signatureDecrypt →
        Uint32 (slice input 0 4) ≠ signatureFhePubKey →
        Uint32 (slice input 0 4) ≠ signatureTrivialEncrypt →
        FheLibRun tfhe environment caller addr input readOnly
            = (([], some "precompile method not found"), environment)
          ∧ FheLibRequiredGas params environment input = 0) := by
  constructor
  · intro h
    simp [FheLibRun, FheLibRequiredGas, h]
  · intro h4 h1 h2 h3 h5 h6
    simp [FheLibRun, FheLibRequiredGas, Nat.not_lt.mpr h4, h1, h2, h3, h5, h6]

/-- C8 at concrete inputs: a 3-byte input and an input that starts with the bytes
`de ad be ef`. -/
theorem FheLibRun_rejects_unknown_selector_witness :
    (FheLibRun clearTfhe (sampleEnv [ctOne]) [] [] [0xf9, 0x53, 0xe4] false
        = (([], some "input must contain at least 4 bytes for method signature"),
            sampleEnv [ctOne])
      ∧ FheLibRequiredGas sampleParams (sampleEnv [ctOne]) [0xf9, 0x53, 0xe4] = 0)
    ∧ (FheLibRun clearTfhe (sampleEnv [ctOne]) [] [] [0xde, 0xad, 0xbe, 0xef, 1, 2] false
        = (([], some "precompile method not found"), sampleEnv [ctOne])
      ∧ FheLibRequiredGas sampleParams (sampleEnv [ctOne]) [0xde, 0xad, 0xbe, 0xef, 1, 2] = 0) :=
  ⟨(FheLibRun_rejects_unknown_selector sampleParams clearTfhe (sampleEnv [ctOne]) [] []
      [0xf9, 0x53, 0xe4] false).1 (by decide),
    (FheLibRun_rejects_unknown_selector sampleParams clearTfhe (sampleEnv [ctOne]) [] []
      [0xde, 0xad, 0xbe, 0xef, 1, 2] false).2 (by decide) (by decide) (by decide) (by decide)
      (by decide) (by decide)⟩

/-! ## Trailing bytes and missing bytes -/

theorem slice_take_window (input : List Byte) (w k : Nat) (h : w ≤ k) :
    slice (input.take k) 4 (minInt w (input.take k).length)
      = slice input 4 (minInt w input.length) := by
  unfold slice
  rw [minInt_eq_min, minInt_eq_min, List.length_take, List.take_take]
  congr 2
  omega

theorem Uint32_take (input : List Byte) (k : Nat) (h : 4 ≤ k) :
    Uint32 (slice (input.take k) 0 4) = Uint32 (slice input 0 4) := by
  unfold slice
  rw [List.take_take]
  congr 3
  omega

/-- C9: for each operation, with `N` its fixed payload length (fheAdd 65, cast 33,
decrypt 32, fhePubKey 1, trivialEncrypt 33), on every input of length at least
`4 + N` that carries the selector of the operation, `FheLibRun` and
`FheLibRequiredGas` return on the input what they return on its first `4 + N` bytes.
An input that carries the selector of fheAdd, cast, decrypt or trivialEncrypt and
fewer than `N` payload bytes makes `FheLibRun` return the length error of the
operation, the context unchanged. -/
theorem FheLib_ignores_trailing_bytes (params : Params) (tfhe : Tfhe)
    (environment : EVMEnvironment) (caller addr : Address) (input : List Byte)
    (readOnly : Bool) :
    (∀ N, payloadLength (Uint32 (slice input 0 4)) = some N → 4 + N ≤ input.length →
        FheLibRun tfhe environment caller addr input readOnly
            = FheLibRun tfhe environment caller addr (input.take (4 + N)) readOnly
          ∧ FheLibRequiredGas params environment input
            = FheLibRequiredGas params environment (input.take (4 + N)))
    ∧ (4 ≤ input.length → Uint32 (slice input 0 4) = signatureFheAdd → input.length < 4 + 65 →
        FheLibRun tfhe environment caller addr input readOnly
          = (([], some "input needs to contain two 256-bit sized values and 1 8-bit value"),
              environment))
    ∧ (4 ≤ input.length → Uint32 (slice input 0 4) = signatureCast → input.length < 4 + 33 →
        FheLibRun tfhe environment caller addr input readOnly
          = (([], some
                "cast Run() input needs to contain a ciphertext and one byte for its type"),
              environment))
    ∧ (4 ≤ input.length → Uint32 (slice input 0 4) = signatureDecrypt →
        input.length < 4 + 32 →
        FheLibRun tfhe environment caller addr input readOnly
          = (([], some "decrypt input len must be 32 bytes"), environment))
    ∧ (4 ≤ input.length → Uint32 (slice input 0 4) = signatureTrivialEncrypt →
        input.length < 4 + 33 →
        FheLibRun tfhe environment caller addr input readOnly
          = (([], some "trivialEncrypt input len must be 33 bytes"), environment)) := by
  refine ⟨?_, ?_, ?_, ?_, ?_⟩
  · intro N hN hlen
    have h4 : 4 ≤ input.length := by omega
    have h4t : 4 ≤ (input.take (4 + N)).length := by
      rw [List.length_take]
      omega
    have hsig := Uint32_take input (4 + N) (by omega)
    unfold payloadLength at hN
    split_ifs at hN with h1 h2 h3 h5 h6
    · cases hN
      rw [FheLibRun_fheAdd tfhe environment caller addr input readOnly h4 h1,
        FheLibRun_fheAdd tfhe environment caller addr _ readOnly h4t (hsig.trans h1),
        FheLibRequiredGas_fheAdd params environment input h4 h1,
        FheLibRequiredGas_fheAdd params environment _ h4t (hsig.trans h1),
        slice_take_window input 69 (4 + 65) (by omega)]
      exact ⟨rfl, rfl⟩
    · cases hN
      rw [FheLibRun_cast tfhe environment caller addr input readOnly h4 h2,
        FheLibRun_cast tfhe environment caller addr _ readOnly h4t (hsig.trans h2),
        FheLibRequiredGas_cast params environment input h4 h2,
        FheLibRequiredGas_cast params environment _ h4t (hsig.trans h2),
        slice_take_window input 37 (4 + 33) (by omega)]
      exact ⟨rfl, rfl⟩
    · cases hN
      rw [FheLibRun_decrypt tfhe environment caller addr input readOnly h4 h3,
        FheLibRun_decrypt tfhe environment caller addr _ readOnly h4t (hsig.trans h3),
        FheLibRequiredGas_decrypt params environment input h4 h3,
        FheLibRequiredGas_decrypt params environment _ h4t (hsig.trans h3),
        slice_take_window input 36 (4 + 32) (by omega)]
      exact ⟨rfl, rfl⟩
    · cases hN
      rw [FheLibRun_fhePubKey tfhe environment caller addr input readOnly h4 h5,
        FheLibRun_fhePubKey tfhe environment caller addr _ readOnly h4t (hsig.trans h5),
        FheLibRequiredGas_fhePubKey params environment input h4 h5,
        FheLibRequiredGas_fhePubKey params environment _ h4t (hsig.trans h5),
        slice_take_window input 5 (4 + 1) (by omega)]
      exact ⟨rfl, rfl⟩
    · cases hN
      rw [FheLibRun_trivialEncrypt tfhe environment caller addr input readOnly h4 h6,
        FheLibRun_trivialEncrypt tfhe environment caller addr _ readOnly h4t (hsig.trans h6),
        FheLibRequiredGas_trivialEncrypt params environment input h4 h6,
        FheLibRequiredGas_trivialEncrypt params environment _ h4t (hsig.trans h6),
        slice_take_window input 37 (4 + 33) (by omega)]
      exact ⟨rfl, rfl⟩
  · intro h4 hsig hlen
    have hp : (slice input 4 (minInt 69 input.length)).length ≠ 65 := by
      rw [payload_length]
      omega
    rw [FheLibRun_fheAdd tfhe environment caller addr input readOnly h4 hsig]
    simp [fheAddRun, isScalarOp_short _ hp]
  · intro h4 hsig hlen
    have hp : (slice input 4 (minInt 37 input.length)).length ≠ 33 := by
      rw [payload_length]
      omega
    rw [FheLibRun_cast tfhe environment caller addr input readOnly h4 hsig]
    simp [castRun, hp]
  · intro h4 hsig hlen
    have hp : (slice input 4 (minInt 36 input.length)).length ≠ 32 := by
      rw [payload_length]
      omega
    rw [FheLibRun_decrypt tfhe environment caller addr input readOnly h4 hsig]
    simp [decryptRun, hp]
  · intro h4 hsig hlen
    have hp : (slice input 4 (minInt 37 input.length)).length ≠ 33 := by
      rw [payload_length]
      omega
    rw [FheLibRun_trivialEncrypt tfhe environment caller addr input readOnly h4 hsig]
    simp [trivialEncryptRun, hp]

/-- C9 at concrete inputs: a decrypt call followed by two more bytes gives what the
36-byte call gives, the plaintext 5 at the price 700; a cast call with a 2-byte
payload is a length error. -/
theorem FheLib_ignores_trailing_bytes_witness :
    (FheLibRun clearTfhe (sampleEnv []) [] []
          ([0x5a, 0x4e, 0xe4, 0x40] ++ (clearTfhe.getHash ctFive16).bytes ++ [9, 9]) false
        = FheLibRun clearTfhe (sampleEnv []) [] []
          (([0x5a, 0x4e, 0xe4, 0x40] ++ (clearTfhe.getHash ctFive16).bytes ++ [9, 9]).take
            (4 + 32)) false
      ∧ FheLibRequiredGas sampleParams (sampleEnv [])
          ([0x5a, 0x4e, 0xe4, 0x40] ++ (clearTfhe.getHash ctFive16).bytes ++ [9, 9])
        = FheLibRequiredGas sampleParams (sampleEnv [])
          (([0x5a, 0x4e, 0xe4, 0x40] ++ (clearTfhe.getHash ctFive16).bytes ++ [9, 9]).take
            (4 + 32)))
    ∧ (FheLibRun clearTfhe (sampleEnv []) [] []
          ([0x5a, 0x4e, 0xe4, 0x40] ++ (clearTfhe.getHash ctFive16).bytes ++ [9, 9]) false).1
        = (FillBytes 5 32, none)
    ∧ FheLibRequiredGas sampleParams (sampleEnv [])
          ([0x5a, 0x4e, 0xe4, 0x40] ++ (clearTfhe.getHash ctFive16).bytes ++ [9, 9]) = 700
    ∧ FheLibRun clearTfhe (sampleEnv []) [] [] [0x4b, 0xe6, 0x8d, 0x20, 1, 2] false
        = (([], some
              "cast Run() input needs to contain a ciphertext and one byte for its type"),
            sampleEnv []) :=
  ⟨(FheLib_ignores_trailing_bytes sampleParams clearTfhe (sampleEnv []) [] []
      ([0x5a, 0x4e, 0xe4, 0x40] ++ (clearTfhe.getHash ctFive16).bytes ++ [9, 9]) false).1
      32 (by decide) (by decide),
    by decide, by decide,
    (FheLib_ignores_trailing_bytes sampleParams clearTfhe (sampleEnv []) [] []
      [0x4b, 0xe6, 0x8d, 0x20, 1, 2] false).2.2.1 (by decide) (by decide) (by decide)⟩

/-! ## Public-key fetch without a flag byte -/

/-- C10 (counterexample): the stored hash matches and the input is the 4-byte
fhePubKey selector alone; the public key is `[1, 2, 3]`. `FheLibRun` returns 64
bytes, the offset word, the key and 29 bytes of padding, not the raw key. -/
theorem fhePubKey_no_flag_is_wrapped :
    (sampleEnv []).GetState fhePubKeyHashPrecompile fhePubKeyHashSlot = clearTfhe.pksHash
    ∧ clearTfhe.pksBytes = [1, 2, 3]
    ∧ (FheLibRun clearTfhe (sampleEnv []) [] [] [0xd9, 0xd4, 0x7b, 0xb0] false).1
        = (List.replicate 31 0 ++ [0x20] ++ [1, 2, 3] ++ List.replicate 29 0, none)
    ∧ (FheLibRun clearTfhe (sampleEnv []) [] [] [0xd9, 0xd4, 0x7b, 0xb0] false).1.1
        ≠ clearTfhe.pksBytes := by
  decide

theorem padArrayTo32Multiple_offset (blob : List Byte) :
    padArrayTo32Multiple ((List.replicate 32 (0 : Byte)).set 31 0x20 ++ blob)
      = List.replicate 31 0 ++ [0x20] ++ blob
          ++ List.replicate ((32 - (32 + blob.length) % 32) % 32) 0 := by
  have h : (List.replicate 32 (0 : Byte)).set 31 0x20 = List.replicate 31 0 ++ [0x20] := by
    decide
  rw [h]
  simp only [padArrayTo32Multiple, List.length_append, List.length_replicate,
    List.length_singleton]

/-- C10 (amended): when the stored public-key hash matches and the input is exactly
the 4-byte fhePubKey selector, the inner `fhePubKeyRun` returns the raw public-key
blob unmodified, and `FheLibRun` returns it behind a 32-byte offset word (31 zero
bytes, then 0x20) and right-padded with zero bytes to a multiple of 32, with no error
and the context unchanged. -/
theorem fhePubKey_no_flag (tfhe : Tfhe) (environment : EVMEnvironment)
    (caller addr : Address) (input : List Byte) (readOnly : Bool)
    (hlen : input.length = 4) (hsig : Uint32 (slice input 0 4) = signatureFhePubKey)
    (hhash : environment.GetState fhePubKeyHashPrecompile fhePubKeyHashSlot = tfhe.pksHash) :
    fhePubKeyRun tfhe environment caller addr (slice input 4 (minInt 5 input.length)) readOnly
        = (tfhe.pksBytes, none)
    ∧ FheLibRun tfhe environment caller addr input readOnly
        = ((List.replicate 31 0 ++ [0x20] ++ tfhe.pksBytes
              ++ List.replicate ((32 - (32 + tfhe.pksBytes.length) % 32) % 32) 0, none),
            environment) := by
  have hp : slice input 4 (minInt 5 input.length) = [] := by
    apply List.eq_nil_of_length_eq_zero
    rw [payload_length]
    omega
  have hrun : fhePubKeyRun tfhe environment caller addr
      (slice input 4 (minInt 5 input.length)) readOnly = (tfhe.pksBytes, none) := by
    rw [hp]
    simp [fhePubKeyRun, hhash]
  refine ⟨hrun, ?_⟩
  rw [FheLibRun_fhePubKey tfhe environment caller addr input readOnly (by omega) hsig, hrun]
  simp only [padArrayTo32Multiple_offset]

/-- C10 (amended) at a concrete input: the key `[1, 2, 3]` comes back raw from
`fhePubKeyRun` and as 64 bytes from `FheLibRun`. -/
theorem fhePubKey_no_flag_witness :
    fhePubKeyRun clearTfhe (sampleEnv []) [] []
        (slice [0xd9, 0xd4, 0x7b, 0xb0] 4 (minInt 5 [0xd9, 0xd4, 0x7b, 0xb0].length)) false
        = (clearTfhe.pksBytes, none)
    ∧ FheLibRun clearTfhe (sampleEnv []) [] [] [0xd9, 0xd4, 0x7b, 0xb0] false
        = ((List.replicate 31 0 ++ [0x20] ++ clearTfhe.pksBytes
              ++ List.replicate ((32 - (32 + clearTfhe.pksBytes.length) % 32) % 32) 0, none),
            sampleEnv []) :=
  fhePubKey_no_flag clearTfhe (sampleEnv []) [] [] [0xd9, 0xd4, 0x7b, 0xb0] false
    (by decide) (by decide) (by decide)

/-! ## Public-key fetch with the flag byte -/

theorem slice_flag (input : List Byte) (h : 5 ≤ input.length) :
    slice input 4 (minInt 5 input.length) = [input.getD 4 0] := by
  have hl : (slice input 4 (minInt 5 input.length)).length = 1 := by
    rw [payload_length]
    omega
  have hm : minInt 5 input.length = 5 := by
    rw [minInt_eq_min]
    omega
  match hs : slice input 4 (minInt 5 input.length), hl with
  | [x], _ =>
    have hx : (slice input 4 (minInt 5 input.length)).getD 0 0 = input.getD 4 0 := by
      rw [hm]
      simp [slice, List.getD_eq_getElem?_getD, List.getElem?_drop, List.getElem?_take]
    rw [hs] at hx
    simpa using hx

set_option maxRecDepth 100000 in
/-- C11 (counterexample): the stored hash matches, the key is `[1, 2, 3]` and the
input is the fhePubKey selector followed by the flag byte 1; the helper of the
reference engine is `toEVMBytes`, the wrapped shape the specification describes for
the flagged fetch. `fhePubKeyRun` returns the key already behind an offset word and
padded, 64 bytes, and `FheLibRun` puts its own offset word before them: it returns 96
bytes, two offset words, then the key and its padding. The bytes at offset 32 are not
the key, and the length is not 64, the least multiple of 32 that is at least 32 + 3. -/
theorem fhePubKey_flag_not_raw_after_offset :
    (sampleEnv []).GetState fhePubKeyHashPrecompile fhePubKeyHashSlot = clearTfhe.pksHash
    ∧ clearTfhe.pksBytes = [1, 2, 3]
    ∧ clearTfhe.toEVMBytes clearTfhe.pksBytes = toEVMBytes clearTfhe.pksBytes
    ∧ fhePubKeyRun clearTfhe (sampleEnv []) [] [] [1] false
        = (List.replicate 31 0 ++ [0x20] ++ [1, 2, 3] ++ List.replicate 29 0, none)
    ∧ (FheLibRun clearTfhe (sampleEnv []) [] [] [0xd9, 0xd4, 0x7b, 0xb0, 1] false).1
        = (List.replicate 31 0 ++ [0x20] ++ (List.replicate 31 0 ++ [0x20]) ++ [1, 2, 3]
            ++ List.replicate 29 0, none)
    ∧ ((FheLibRun clearTfhe (sampleEnv []) [] [] [0xd9, 0xd4, 0x7b, 0xb0, 1] false).1.1.drop
        32).take 3 ≠ clearTfhe.pksBytes
    ∧ (FheLibRun clearTfhe (sampleEnv []) [] [] [0xd9, 0xd4, 0x7b, 0xb0, 1] false).1.1.length
        = 96 := by
  decide

/-- C11 (amended): when the stored public-key hash matches, `FheLibRun` on the
fhePubKey selector followed by the flag byte 1 returns, with no error and the context
unchanged, the 32-byte offset word (31 zero bytes, then 0x20), then
`toEVMBytes(pksBytes)`, the form of the blob that `fhePubKeyRun` returns under the
flag, then zero bytes only; the total length is the least multiple of 32 that is at
least 32 plus the length of `toEVMBytes(pksBytes)`. -/
theorem fhePubKey_flag (tfhe : Tfhe) (environment : EVMEnvironment)
    (caller addr : Address) (input : List Byte) (readOnly : Bool)
    (hlen : 5 ≤ input.length) (hsig : Uint32 (slice input 0 4) = signatureFhePubKey)
    (hflag : input.getD 4 0 = 1)
    (hhash : environment.GetState fhePubKeyHashPrecompile fhePubKeyHashSlot = tfhe.pksHash) :
    FheLibRun tfhe environment caller addr input readOnly
        = ((List.replicate 31 0 ++ [0x20] ++ tfhe.toEVMBytes tfhe.pksBytes
              ++ List.replicate
                  ((32 - (32 + (tfhe.toEVMBytes tfhe.pksBytes).length) % 32) % 32) 0, none),
            environment)
    ∧ (FheLibRun tfhe environment caller addr input readOnly).1.1.take 32
        = List.replicate 31 0 ++ [0x20]
    ∧ (FheLibRun tfhe environment caller addr input readOnly).1.1.length % 32 = 0
    ∧ 32 + (tfhe.toEVMBytes tfhe.pksBytes).length
        ≤ (FheLibRun tfhe environment caller addr input readOnly).1.1.length
    ∧ (FheLibRun tfhe environment caller addr input readOnly).1.1.length
        < 32 + (tfhe.toEVMBytes tfhe.pksBytes).length + 32 := by
  have hrun : fhePubKeyRun tfhe environment caller addr
      (slice input 4 (minInt 5 input.length)) readOnly
        = (tfhe.toEVMBytes tfhe.pksBytes, none) := by
    rw [slice_flag input hlen, hflag]
    simp [fhePubKeyRun, hhash]
  have hout : FheLibRun tfhe environment caller addr input readOnly
      = ((List.replicate 31 0 ++ [0x20] ++ tfhe.toEVMBytes tfhe.pksBytes
            ++ List.replicate
                ((32 - (32 + (tfhe.toEVMBytes tfhe.pksBytes).length) % 32) % 32) 0, none),
          environment) := by
    rw [FheLibRun_fhePubKey tfhe environment caller addr input readOnly (by omega) hsig, hrun]
    simp only [padArrayTo32Multiple_offset]
  rw [hout]
  refine ⟨rfl, ?_, ?_, ?_, ?_⟩
  · simp [List.take_append_eq_append_take]
  · simp only [List.length_append, List.length_replicate, List.length_singleton]
    omega
  · simp only [List.length_append, List.length_replicate, List.length_singleton]
    omega
  · simp only [List.length_append, List.length_replicate, List.length_singleton]
    omega

/-- C11 (amended) at a concrete input: the key `[1, 2, 3]` under the clear engine. -/
theorem fhePubKey_flag_witness :
    (FheLibRun clearTfhe (sampleEnv []) [] [] [0xd9, 0xd4, 0x7b, 0xb0, 1] false).1.1.take 32
        = List.replicate 31 0 ++ [0x20]
    ∧ (FheLibRun clearTfhe (sampleEnv []) [] [] [0xd9, 0xd4, 0x7b, 0xb0, 1] false).1.1.length
        % 32 = 0 :=
  ⟨(fhePubKey_flag clearTfhe (sampleEnv []) [] [] [0xd9, 0xd4, 0x7b, 0xb0, 1] false
      (by decide) (by decide) (by decide) (by decide)).2.1,
    (fhePubKey_flag clearTfhe (sampleEnv []) [] [] [0xd9, 0xd4, 0x7b, 0xb0, 1] false
      (by decide) (by decide) (by decide) (by decide)).2.2.1⟩

/-! ## The stored public-key hash -/

/-- C12: when the hash stored in state at the public-key hash slot differs from
`pksHash`, `fhePubKeyRun` returns an error and no bytes for every payload, and so
does `FheLibRun` on every input that carries the fhePubKey selector, the context
unchanged; when it matches, both succeed; `fhePubKeyRequiredGas` is `FhePubKeyGas` on
every input. -/
theorem fhePubKey_hash_check (params : Params) (tfhe : Tfhe) (environment : EVMEnvironment)
    (caller addr : Address) (input payload : List Byte) (readOnly : Bool)
    (h4 : 4 ≤ input.length) (hsig : Uint32 (slice input 0 4) = signatureFhePubKey) :
    (environment.GetState fhePubKeyHashPrecompile fhePubKeyHashSlot ≠ tfhe.pksHash →
      fhePubKeyRun tfhe environment caller addr payload readOnly
          = ([], some "fhePubKey FHE public key hash doesn't match one stored in state")
        ∧ FheLibRun tfhe environment caller addr input readOnly
          = (([], some "fhePubKey FHE public key hash doesn't match one stored in state"),
              environment))
    ∧ (environment.GetState fhePubKeyHashPrecompile fhePubKeyHashSlot = tfhe.pksHash →
        (fhePubKeyRun tfhe environment caller addr payload readOnly).2 = none
        ∧ (FheLibRun tfhe environment caller addr input readOnly).1.2 = none)
    ∧ fhePubKeyRequiredGas params environment payload = params.FhePubKeyGas
    ∧ FheLibRequiredGas params environment input = params.FhePubKeyGas := by
  refine ⟨?_, ?_, rfl, ?_⟩
  · intro hne
    have hrun : ∀ p, fhePubKeyRun tfhe environment caller addr p readOnly
        = ([], some "fhePubKey FHE public key hash doesn't match one stored in state") := by
      intro p
      simp [fhePubKeyRun, hne]
    refine ⟨hrun payload, ?_⟩
    rw [FheLibRun_fhePubKey tfhe environment caller addr input readOnly h4 hsig, hrun]
  · intro heq
    have hrun : ∀ p, (fhePubKeyRun tfhe environment caller addr p readOnly).2 = none := by
      intro p
      simp only [fhePubKeyRun, heq, ne_eq, not_true_eq_false, if_false]
      split <;> rfl
    refine ⟨hrun payload, ?_⟩
    rw [FheLibRun_fhePubKey tfhe environment caller addr input readOnly h4 hsig]
    have h2 := hrun (slice input 4 (minInt 5 input.length))
    rcases hr : fhePubKeyRun tfhe environment caller addr
        (slice input 4 (minInt 5 input.length)) readOnly with ⟨bytes, err⟩
    rw [hr] at h2
    simp only at h2
    subst h2
    rfl
  · rw [FheLibRequiredGas_fhePubKey params environment input h4 hsig]
    rfl

/-- C12 at concrete inputs: a context whose stored hash is the zero hash rejects the
fetch; the context that stores the hash of the key serves it. -/
theorem fhePubKey_hash_check_witness :
    FheLibRun clearTfhe sampleEnvOther [] [] [0xd9, 0xd4, 0x7b, 0xb0, 1] false
        = (([], some "fhePubKey FHE public key hash doesn't match one stored in state"),
            sampleEnvOther)
    ∧ (FheLibRun clearTfhe (sampleEnv []) [] [] [0xd9, 0xd4, 0x7b, 0xb0, 1] false).1.2 = none
    ∧ FheLibRequiredGas sampleParams sampleEnvOther [0xd9, 0xd4, 0x7b, 0xb0, 1] = 2 :=
  ⟨((fhePubKey_hash_check sampleParams clearTfhe sampleEnvOther [] []
      [0xd9, 0xd4, 0x7b, 0xb0, 1] [1] false (by decide) (by decide)).1 (by decide)).2,
    ((fhePubKey_hash_check sampleParams clearTfhe (sampleEnv []) [] []
      [0xd9, 0xd4, 0x7b, 0xb0, 1] [1] false (by decide) (by decide)).2.1 (by decide)).2,
    (fhePubKey_hash_check sampleParams clearTfhe sampleEnvOther [] []
      [0xd9, 0xd4, 0x7b, 0xb0, 1] [1] false (by decide) (by decide)).2.2.2⟩

/-! ## Imports into the registry -/

theorem BytesToHash_bytes (h : Hash) : BytesToHash h.bytes = h := by
  cases h with
  | mk b hb => simp [BytesToHash, hb]

theorem getVerifiedCiphertext_importCiphertext (tfhe : Tfhe) (environment : EVMEnvironment)
    (ct : tfheCiphertext) :
    getVerifiedCiphertext (importCiphertext tfhe environment ct) (tfhe.getHash ct)
      = some ⟨ct⟩ := by
  simp [getVerifiedCiphertext, importCiphertext, List.lookup]

theorem importRandomCiphertext_imports (tfhe : Tfhe) (environment : EVMEnvironment)
    (t : fheUintType) :
    importsWithoutEngine tfhe environment
      (((importRandomCiphertext tfhe environment t).1, none),
        (importRandomCiphertext tfhe environment t).2) t := by
  refine ⟨rfl, rfl, ⟨tfhe.placeholder environment.fhevmData.nextCiphertextHashOnGasEst, t⟩,
    rfl, rfl, ?_⟩
  simp [importRandomCiphertext, BytesToHash_bytes, getVerifiedCiphertext, importCiphertext,
    List.lookup]

theorem estimating_of_flags (environment : EVMEnvironment)
    (hc : environment.IsCommitting = false) (he : environment.IsEthCall = false) :
    (!environment.IsCommitting && !environment.IsEthCall) = true := by
  simp [hc, he]

/-! ## Estimation mode -/

/-- C13 (counterexample): a context in estimation mode (neither committing nor a
static call) and a valid trivialEncrypt payload, the value 77 to type `FheUint8`.
`trivialEncryptRun` calls the engine: the call `trivialEncrypt 77 FheUint8` is
appended to the record of engine calls, and what the registry holds under the
returned handle is the result of that call. -/
theorem trivialEncryptRun_estimating_calls_engine :
    sampleEnvOther.IsCommitting = false ∧ sampleEnvOther.IsEthCall = false
    ∧ sampleEnvOther.engineCalls = [.decrypt ctOne]
    ∧ (trivialEncryptRun clearTfhe sampleEnvOther [] [] (FillBytes 77 32 ++ [FheUint8])
        false).2.engineCalls = [.decrypt ctOne, .trivialEncrypt 77 FheUint8]
    ∧ (trivialEncryptRun clearTfhe sampleEnvOther [] [] (FillBytes 77 32 ++ [FheUint8])
        false).1 = ((clearTfhe.getHash (clearTfhe.trivialEncrypt 77 FheUint8)).bytes, none)
    ∧ (FheLibRun clearTfhe sampleEnvOther [] []
        ([0xe7, 0x17, 0x46, 0xb8] ++ FillBytes 77 32 ++ [FheUint8]) false).2.engineCalls
        = [.decrypt ctOne, .trivialEncrypt 77 FheUint8] := by
  decide

/-- C13 (amended): in Estimating mode, fheAdd in ciphertext-ciphertext form (two
resolving handles of one type), fheAdd in scalar form (a resolving left handle) and
cast (a resolving handle and a valid target type) make no call to the engine and
return the handle of the placeholder ciphertext that `importRandomCiphertext` imports
into the registry, whose type is the left operand's type for fheAdd and the target
type for cast. -/
theorem estimating_imports_placeholder (tfhe : Tfhe) (environment : EVMEnvironment)
    (caller addr : Address) (input : List Byte) (readOnly : Bool) :
    (∀ lhs rhs, environment.IsCommitting = false → environment.IsEthCall = false →
        input.length = 65 → input.getD 64 0 ≠ 1 →
        getVerifiedCiphertext environment (BytesToHash (slice input 0 32)) = some lhs →
        getVerifiedCiphertext environment (BytesToHash (slice input 32 64)) = some rhs →
        lhs.ciphertext.fheUintType = rhs.ciphertext.fheUintType →
        fheAddRun tfhe environment caller addr input readOnly
            = (((importRandomCiphertext tfhe environment lhs.ciphertext.fheUintType).1, none),
                (importRandomCiphertext tfhe environment lhs.ciphertext.fheUintType).2)
          ∧ importsWithoutEngine tfhe environment
              (fheAddRun tfhe environment caller addr input readOnly)
              lhs.ciphertext.fheUintType)
    ∧ (∀ lhs, environment.IsCommitting = false → environment.IsEthCall = false →
        input.length = 65 → input.getD 64 0 = 1 →
        getVerifiedCiphertext environment (BytesToHash (slice input 0 32)) = some lhs →
        fheAddRun tfhe environment caller addr input readOnly
            = (((importRandomCiphertext tfhe environment lhs.ciphertext.fheUintType).1, none),
                (importRandomCiphertext tfhe environment lhs.ciphertext.fheUintType).2)
          ∧ importsWithoutEngine tfhe environment
              (fheAddRun tfhe environment caller addr input readOnly)
              lhs.ciphertext.fheUintType)
    ∧ (∀ ct, environment.IsCommitting = false → environment.IsEthCall = false →
        input.length = 33 →
        getVerifiedCiphertext environment (BytesToHash (slice input 0 32)) = some ct →
        isValidType (input.getD 32 0) = true →
        castRun tfhe environment caller addr input readOnly
            = (((importRandomCiphertext tfhe environment (input.getD 32 0)).1, none),
                (importRandomCiphertext tfhe environment (input.getD 32 0)).2)
          ∧ importsWithoutEngine tfhe environment
              (castRun tfhe environment caller addr input readOnly) (input.getD 32 0)) := by
  refine ⟨?_, ?_, ?_⟩
  · intro lhs rhs hc he hlen hflag hl hr hty
    have hrun : fheAddRun tfhe environment caller addr input readOnly
        = (((importRandomCiphertext tfhe environment lhs.ciphertext.fheUintType).1, none),
            (importRandomCiphertext tfhe environment lhs.ciphertext.fheUintType).2) := by
      simp [fheAddRun, isScalarOp_clear input hlen hflag, get2VerifiedOperands, hlen, hl, hr,
        hty, hc, he]
    exact ⟨hrun, by rw [hrun]; exact importRandomCiphertext_imports tfhe environment _⟩
  · intro lhs hc he hlen hflag hl
    have hrun : fheAddRun tfhe environment caller addr input readOnly
        = (((importRandomCiphertext tfhe environment lhs.ciphertext.fheUintType).1, none),
            (importRandomCiphertext tfhe environment lhs.ciphertext.fheUintType).2) := by
      simp [fheAddRun, isScalarOp_set input hlen hflag, getScalarOperands, hlen, hl, hc, he]
    exact ⟨hrun, by rw [hrun]; exact importRandomCiphertext_imports tfhe environment _⟩
  · intro ct hc he hlen hct hvalid
    have hrun : castRun tfhe environment caller addr input readOnly
        = (((importRandomCiphertext tfhe environment (input.getD 32 0)).1, none),
            (importRandomCiphertext tfhe environment (input.getD 32 0)).2) := by
      simp only [castRun, hlen, hct, hvalid, estimating_of_flags environment hc he]
      simp
    exact ⟨hrun, by rw [hrun]; exact importRandomCiphertext_imports tfhe environment _⟩

/-- C13 (amended) at concrete inputs: in the estimation-mode context, an fheAdd of
the two registered `FheUint8` handles and a cast to `FheUint32` each import a
ciphertext without an engine call. -/
theorem estimating_imports_placeholder_witness :
    importsWithoutEngine clearTfhe sampleEnvOther
        (fheAddRun clearTfhe sampleEnvOther [] []
          ((clearTfhe.getHash ctOne).bytes ++ (clearTfhe.getHash ctOne).bytes ++ [0]) false)
        FheUint8
    ∧ importsWithoutEngine clearTfhe sampleEnvOther
        (castRun clearTfhe sampleEnvOther [] []
          ((clearTfhe.getHash ctOne).bytes ++ [FheUint32]) false)
        FheUint32 :=
  ⟨((estimating_imports_placeholder clearTfhe sampleEnvOther [] []
      ((clearTfhe.getHash ctOne).bytes ++ (clearTfhe.getHash ctOne).bytes ++ [0]) false).1
      ⟨ctZero⟩ ⟨ctZero⟩ rfl rfl (by decide) (by decide) (by decide) (by decide) rfl).2,
    ((estimating_imports_placeholder clearTfhe sampleEnvOther [] []
      ((clearTfhe.getHash ctOne).bytes ++ [FheUint32]) false).2.2
      ⟨ctZero⟩ rfl rfl (by decide) (by decide) (by decide)).2⟩

/-- C14: in Estimating mode, on a 32-byte handle that resolves in the registry,
`decryptRun` returns 32 bytes all equal to 0xFF and no error, and leaves the context
as it was: no decrypt is recorded and the optimistic-require list is neither
evaluated nor changed. On a handle absent from the registry, and on a payload whose
length is not 32, it returns an error and no bytes in every mode, the context
unchanged. -/
theorem decryptRun_estimating (tfhe : Tfhe) (environment : EVMEnvironment)
    (caller addr : Address) (input : List Byte) (readOnly : Bool) :
    (∀ ct, environment.IsCommitting = false → environment.IsEthCall = false →
        input.length = 32 →
        getVerifiedCiphertext environment (BytesToHash input) = some ct →
        decryptRun tfhe environment caller addr input readOnly
          = ((List.replicate 32 0xFF, none), environment))
    ∧ (input.length = 32 → getVerifiedCiphertext environment (BytesToHash input) = none →
        decryptRun tfhe environment caller addr input readOnly
          = (([], some "decrypt unverified handle"), environment))
    ∧ (input.length ≠ 32 →
        decryptRun tfhe environment caller addr input readOnly
          = (([], some "decrypt input len must be 32 bytes"), environment)) := by
  refine ⟨?_, ?_, ?_⟩
  · intro ct hc he hlen hct
    simp only [decryptRun, hlen, hct, estimating_of_flags environment hc he]
    simp
  · intro hlen hct
    simp only [decryptRun, hlen, hct]
    simp
  · intro hlen
    simp [decryptRun, hlen]

/-- C14 at concrete inputs: the estimation-mode context has a pending require and one
recorded engine call; a decrypt of a registered handle returns 32 bytes 0xFF and
leaves both as they were; a decrypt of an unregistered handle fails in the committing
context. -/
theorem decryptRun_estimating_witness :
    decryptRun clearTfhe sampleEnvOther [] [] (clearTfhe.getHash ctOne).bytes false
        = ((List.replicate 32 0xFF, none), sampleEnvOther)
    ∧ decryptRun clearTfhe (sampleEnv []) [] [] (FillBytes 77 32) false
        = (([], some "decrypt unverified handle"), sampleEnv [])
    ∧ decryptRun clearTfhe (sampleEnv []) [] [] [1, 2] false
        = (([], some "decrypt input len must be 32 bytes"), sampleEnv []) :=
  ⟨(decryptRun_estimating clearTfhe sampleEnvOther [] [] (clearTfhe.getHash ctOne).bytes
      false).1 ⟨ctZero⟩ rfl rfl (by decide) (by decide),
    (decryptRun_estimating clearTfhe (sampleEnv []) [] [] (FillBytes 77 32) false).2.1
      (by decide) (by decide),
    (decryptRun_estimating clearTfhe (sampleEnv []) [] [] [1, 2] false).2.2 (by decide)⟩

/-! ## The type byte -/

/-- C15 (the code at a failing input): a 33-byte payload whose last byte, 7, is not a
member of the type enumeration. `castRun` rejects it and leaves the context as it
was. `trivialEncryptRun` returns no error: it calls the engine's `trivialEncrypt`
with the type 7 and imports the result into the registry, whose size grows from 2 to
3. -/
theorem trivialEncryptRun_accepts_invalid_type :
    isValidType 7 = false
    ∧ (castRun clearTfhe (sampleEnv []) [] [] ((clearTfhe.getHash ctOne).bytes ++ [7])
        false).1 = ([], some "invalid type provided")
    ∧ (castRun clearTfhe (sampleEnv []) [] [] ((clearTfhe.getHash ctOne).bytes ++ [7])
        false).2.engineCalls = []
    ∧ (trivialEncryptRun clearTfhe (sampleEnv []) [] [] ((clearTfhe.getHash ctOne).bytes ++ [7])
        false).1.2 = none
    ∧ (trivialEncryptRun clearTfhe (sampleEnv []) [] [] ((clearTfhe.getHash ctOne).bytes ++ [7])
        false).2.engineCalls
        = [.trivialEncrypt (SetBytes (clearTfhe.getHash ctOne).bytes) 7]
    ∧ (sampleEnv []).fhevmData.verifiedCiphertexts.length = 2
    ∧ (trivialEncryptRun clearTfhe (sampleEnv []) [] [] ((clearTfhe.getHash ctOne).bytes ++ [7])
        false).2.fhevmData.verifiedCiphertexts.length = 3 := by
  decide

/-! ## A successful addition -/

/-- C16: on a 65-byte fheAdd payload in ciphertext-ciphertext form whose two handles
resolve in the registry to ciphertexts `lhs` and `rhs` of one type `T`. Outside
Estimating mode, when the engine's `add` of `lhs` and `rhs` returns a ciphertext
`result` of type `T`: `fheAddRun` returns no error and exactly the 32 bytes of the
content hash of `result`, it has called `add` once on `lhs` and `rhs`, and after the
call that handle resolves in the registry to `result`, of type `T`. In Estimating
mode the same holds of the placeholder ciphertext of type `T` that is produced in
place of the sum, with no engine call. -/
theorem fheAddRun_imports_result (tfhe : Tfhe) (environment : EVMEnvironment)
    (caller addr : Address) (input : List Byte) (readOnly : Bool)
    (lhs rhs : verifiedCiphertext) (T : fheUintType)
    (hlen : input.length = 65) (hflag : input.getD 64 0 ≠ 1)
    (hl : getVerifiedCiphertext environment (BytesToHash (slice input 0 32)) = some lhs)
    (hr : getVerifiedCiphertext environment (BytesToHash (slice input 32 64)) = some rhs)
    (hlT : lhs.ciphertext.fheUintType = T) (hrT : rhs.ciphertext.fheUintType = T) :
    ((!environment.IsCommitting && !environment.IsEthCall) = false →
      ∀ result, tfhe.add lhs.ciphertext rhs.ciphertext = .ok result →
        result.fheUintType = T →
        fheAddRun tfhe environment caller addr input readOnly
            = (((tfhe.getHash result).bytes, none),
                importCiphertext tfhe
                  (environment.record (.add lhs.ciphertext rhs.ciphertext)) result)
          ∧ (fheAddRun tfhe environment caller addr input readOnly).1.1.length = 32
          ∧ (fheAddRun tfhe environment caller addr input readOnly).2.engineCalls
            = environment.engineCalls ++ [.add lhs.ciphertext rhs.ciphertext]
          ∧ getVerifiedCiphertext (fheAddRun tfhe environment caller addr input readOnly).2
              (BytesToHash (fheAddRun tfhe environment caller addr input readOnly).1.1)
            = some ⟨result⟩
          ∧ typeTag (fheAddRun tfhe environment caller addr input readOnly).2
              (BytesToHash (fheAddRun tfhe environment caller addr input readOnly).1.1)
            = some T)
    ∧ ((!environment.IsCommitting && !environment.IsEthCall) = true →
        fheAddRun tfhe environment caller addr input readOnly
            = (((tfhe.getHash
                  ⟨tfhe.placeholder environment.fhevmData.nextCiphertextHashOnGasEst,
                    T⟩).bytes, none),
                (importRandomCiphertext tfhe environment T).2)
          ∧ (fheAddRun tfhe environment caller addr input readOnly).1.1.length = 32
          ∧ (fheAddRun tfhe environment caller addr input readOnly).2.engineCalls
            = environment.engineCalls
          ∧ getVerifiedCiphertext (fheAddRun tfhe environment caller addr input readOnly).2
              (BytesToHash (fheAddRun tfhe environment caller addr input readOnly).1.1)
            = some ⟨⟨tfhe.placeholder environment.fhevmData.nextCiphertextHashOnGasEst, T⟩⟩
          ∧ typeTag (fheAddRun tfhe environment caller addr input readOnly).2
              (BytesToHash (fheAddRun tfhe environment caller addr input readOnly).1.1)
            = some T) := by
  have hty : lhs.ciphertext.fheUintType = rhs.ciphertext.fheUintType := hlT.trans hrT.symm
  constructor
  · intro hmode result hres hresT
    have hrun : fheAddRun tfhe environment caller addr input readOnly
        = (((tfhe.getHash result).bytes, none),
            importCiphertext tfhe
              (environment.record (.add lhs.ciphertext rhs.ciphertext)) result) := by
      simp only [fheAddRun, isScalarOp_clear input hlen hflag, get2VerifiedOperands, hlen, hl,
        hr, hmode]
      simp [hty, hres]
    have hget : getVerifiedCiphertext
        (importCiphertext tfhe (environment.record (.add lhs.ciphertext rhs.ciphertext)) result)
        (BytesToHash (tfhe.getHash result).bytes) = some ⟨result⟩ := by
      rw [BytesToHash_bytes]
      exact getVerifiedCiphertext_importCiphertext tfhe _ result
    rw [hrun]
    refine ⟨rfl, (tfhe.getHash result).size, rfl, hget, ?_⟩
    simp only [typeTag, hget, Option.map_some', hresT]
  · intro hmode
    have hrun : fheAddRun tfhe environment caller addr input readOnly
        = (((tfhe.getHash
              ⟨tfhe.placeholder environment.fhevmData.nextCiphertextHashOnGasEst,
                T⟩).bytes, none),
            (importRandomCiphertext tfhe environment T).2) := by
      simp only [fheAddRun, isScalarOp_clear input hlen hflag, get2VerifiedOperands, hlen, hl,
        hr, hmode]
      simp only [hty, hrT, ne_eq, not_true_eq_false, if_false, if_true]
      rfl
    have hget : getVerifiedCiphertext (importRandomCiphertext tfhe environment T).2
        (BytesToHash (tfhe.getHash
          ⟨tfhe.placeholder environment.fhevmData.nextCiphertextHashOnGasEst, T⟩).bytes)
        = some ⟨⟨tfhe.placeholder environment.fhevmData.nextCiphertextHashOnGasEst, T⟩⟩ := by
      simp [importRandomCiphertext, BytesToHash_bytes, getVerifiedCiphertext, importCiphertext,
        List.lookup]
    rw [hrun]
    refine ⟨rfl, (tfhe.getHash _).size, rfl, hget, ?_⟩
    simp only [typeTag, hget, Option.map_some']

/-- C16 at concrete inputs. In the committing context the sum of the registered
`FheUint8` ciphertext 1 with itself, the ciphertext 2, is imported: the output is its
content hash, one `add` is recorded, and the handle resolves to it. In the
estimation-mode context the same payload gives the handle of the placeholder of type
`FheUint8` and records no engine call. -/
theorem fheAddRun_imports_result_witness :
    (fheAddRun clearTfhe (sampleEnv []) [] []
        ((clearTfhe.getHash ctOne).bytes ++ (clearTfhe.getHash ctOne).bytes ++ [0]) false).1
        = ((clearTfhe.getHash (clearTfhe.trivialEncrypt 2 FheUint8)).bytes, none)
    ∧ (fheAddRun clearTfhe (sampleEnv []) [] []
        ((clearTfhe.getHash ctOne).bytes ++ (clearTfhe.getHash ctOne).bytes ++ [0])
        false).2.engineCalls = [.add ctOne ctOne]
    ∧ getVerifiedCiphertext
        (fheAddRun clearTfhe (sampleEnv []) [] []
          ((clearTfhe.getHash ctOne).bytes ++ (clearTfhe.getHash ctOne).bytes ++ [0]) false).2
        (BytesToHash (fheAddRun clearTfhe (sampleEnv []) [] []
          ((clearTfhe.getHash ctOne).bytes ++ (clearTfhe.getHash ctOne).bytes ++ [0])
          false).1.1)
        = some ⟨clearTfhe.trivialEncrypt 2 FheUint8⟩
    ∧ (fheAddRun clearTfhe sampleEnvOther [] []
        ((clearTfhe.getHash ctOne).bytes ++ (clearTfhe.getHash ctOne).bytes ++ [0])
        false).2.engineCalls = sampleEnvOther.engineCalls
    ∧ typeTag
        (fheAddRun clearTfhe sampleEnvOther [] []
          ((clearTfhe.getHash ctOne).bytes ++ (clearTfhe.getHash ctOne).bytes ++ [0]) false).2
        (BytesToHash (fheAddRun clearTfhe sampleEnvOther [] []
          ((clearTfhe.getHash ctOne).bytes ++ (clearTfhe.getHash ctOne).bytes ++ [0])
          false).1.1)
        = some FheUint8 :=
  ⟨congrArg Prod.fst ((fheAddRun_imports_result clearTfhe (sampleEnv []) [] []
      ((clearTfhe.getHash ctOne).bytes ++ (clearTfhe.getHash ctOne).bytes ++ [0]) false
      ⟨ctOne⟩ ⟨ctOne⟩ FheUint8 (by decide) (by decide) (by decide) (by decide) rfl rfl).1
      rfl (clearTfhe.trivialEncrypt 2 FheUint8) rfl rfl).1,
    ((fheAddRun_imports_result clearTfhe (sampleEnv []) [] []
      ((clearTfhe.getHash ctOne).bytes ++ (clearTfhe.getHash ctOne).bytes ++ [0]) false
      ⟨ctOne⟩ ⟨ctOne⟩ FheUint8 (by decide) (by decide) (by decide) (by decide) rfl rfl).1
      rfl (clearTfhe.trivialEncrypt 2 FheUint8) rfl rfl).2.2.1,
    ((fheAddRun_imports_result clearTfhe (sampleEnv []) [] []
      ((clearTfhe.getHash ctOne).bytes ++ (clearTfhe.getHash ctOne).bytes ++ [0]) false
      ⟨ctOne⟩ ⟨ctOne⟩ FheUint8 (by decide) (by decide) (by decide) (by decide) rfl rfl).1
      rfl (clearTfhe.trivialEncrypt 2 FheUint8) rfl rfl).2.2.2.1,
    ((fheAddRun_imports_result clearTfhe sampleEnvOther [] []
      ((clearTfhe.getHash ctOne).bytes ++ (clearTfhe.getHash ctOne).bytes ++ [0]) false
      ⟨ctZero⟩ ⟨ctZero⟩ FheUint8 (by decide) (by decide) (by decide) (by decide) rfl rfl).2
      rfl).2.2.1,
    ((fheAddRun_imports_result clearTfhe sampleEnvOther [] []
      ((clearTfhe.getHash ctOne).bytes ++ (clearTfhe.getHash ctOne).bytes ++ [0]) false
      ⟨ctZero⟩ ⟨ctZero⟩ FheUint8 (by decide) (by decide) (by decide) (by decide) rfl rfl).2
      rfl).2.2.2.2⟩

/-! ## Round trip through trivialEncrypt and decrypt -/

theorem SetBytes_append_singleton (xs : List Byte) (d : Byte) :
    SetBytes (xs ++ [d]) = SetBytes xs * 256 + d.val := by
  simp [SetBytes, List.foldl_append]

theorem FillBytes_succ (n len : Nat) :
    FillBytes n (len + 1) = FillBytes (n / 256) len ++ [Fin.ofNat n] := by
  unfold FillBytes
  rw [List.range_succ, List.map_append]
  congr 1
  · apply List.map_congr_left
    intro i hi
    rw [List.mem_range] at hi
    have h1 : len + 1 - 1 - i = (len - 1 - i) + 1 := by omega
    rw [h1, Nat.pow_succ, Nat.div_div_eq_div_mul, Nat.mul_comm]
  · simp

theorem FillBytes_length (n len : Nat) : (FillBytes n len).length = len := by
  simp [FillBytes]

theorem SetBytes_FillBytes (n len : Nat) : SetBytes (FillBytes n len) = n % 256 ^ len := by
  induction len generalizing n with
  | zero => simp [FillBytes, SetBytes, Nat.mod_one]
  | succ k ih =>
    rw [FillBytes_succ, SetBytes_append_singleton, ih, Nat.pow_succ', Nat.mod_mul]
    have : (Fin.ofNat n : Byte).val = n % 256 := rfl
    rw [this]
    omega

/-- C17: for each supported type `T` (`FheUint8`, `FheUint16`, `FheUint32`) and each
value `v` representable in `T`, in StaticCall or Committing mode with an empty
optimistic-require list and an engine for which the decryption of
`trivialEncrypt(v, T)` is `v`: `trivialEncryptRun` on the 32-byte big-endian encoding
of `v` followed by the type byte `T` succeeds, and `decryptRun` on the handle it
returned, in the context it left, succeeds and returns the 32-byte big-endian
encoding of `v`. -/
theorem trivialEncrypt_decrypt_roundtrip (tfhe : Tfhe) (environment : EVMEnvironment)
    (caller addr : Address) (readOnly : Bool) (v : Nat) (T : fheUintType)
    (hT : (T = FheUint8 ∧ v < 2 ^ 8) ∨ (T = FheUint16 ∧ v < 2 ^ 16)
      ∨ (T = FheUint32 ∧ v < 2 ^ 32))
    (hmode : environment.IsCommitting = true ∨ environment.IsEthCall = true)
    (hreq : environment.fhevmData.optimisticRequires = [])
    (hdec : tfhe.decrypt (tfhe.trivialEncrypt v T) = (v, none)) :
    (trivialEncryptRun tfhe environment caller addr (FillBytes v 32 ++ [T]) readOnly).1.2 = none
    ∧ (decryptRun tfhe
        (trivialEncryptRun tfhe environment caller addr (FillBytes v 32 ++ [T]) readOnly).2
        caller addr
        (trivialEncryptRun tfhe environment caller addr (FillBytes v 32 ++ [T]) readOnly).1.1
        readOnly).1 = (FillBytes v 32, none) := by
  have hv : v < 2 ^ 32 := by
    rcases hT with ⟨_, h⟩ | ⟨_, h⟩ | ⟨_, h⟩ <;> omega
  have hlen : (FillBytes v 32 ++ [T]).length = 33 := by
    simp [FillBytes_length]
  have hslice : slice (FillBytes v 32 ++ [T]) 0 32 = FillBytes v 32 := by
    simp [slice, List.take_append_eq_append_take, FillBytes_length]
  have hget : (FillBytes v 32 ++ [T]).getD 32 0 = T := by
    simp [List.getD_eq_getElem?_getD, List.getElem?_append_right, FillBytes_length]
  have hval : SetBytes (FillBytes v 32) = v := by
    rw [SetBytes_FillBytes]
    apply Nat.mod_eq_of_lt
    have : (2 : Nat) ^ 32 ≤ 256 ^ 32 := by norm_num
    omega
  have hrun : trivialEncryptRun tfhe environment caller addr (FillBytes v 32 ++ [T]) readOnly
      = (((tfhe.getHash (tfhe.trivialEncrypt v T)).bytes, none),
          importCiphertext tfhe (environment.record (.trivialEncrypt v T))
            (tfhe.trivialEncrypt v T)) := by
    simp only [trivialEncryptRun, hlen, hslice, hget, hval]
    simp
  rw [hrun]
  refine ⟨rfl, ?_⟩
  have hmode2 : (importCiphertext tfhe (environment.record (.trivialEncrypt v T))
      (tfhe.trivialEncrypt v T)).IsCommitting = true
      ∨ (importCiphertext tfhe (environment.record (.trivialEncrypt v T))
      (tfhe.trivialEncrypt v T)).IsEthCall = true := hmode
  have hreq2 : (importCiphertext tfhe (environment.record (.trivialEncrypt v T))
      (tfhe.trivialEncrypt v T)).fhevmData.optimisticRequires = [] := hreq
  have hu : Uint64 v = v := by
    unfold Uint64
    apply Nat.mod_eq_of_lt
    omega
  simp only [decryptRun, (tfhe.getHash (tfhe.trivialEncrypt v T)).size, BytesToHash_bytes,
    getVerifiedCiphertext_importCiphertext, not_estimating _ hmode2,
    evaluate_nil tfhe _ hreq2, decryptValue, hdec, hu]
  simp

/-- C17 at a concrete input: under the clear engine, in the committing context with no
pending require, the value 300 of type `FheUint16` comes back as its 32-byte
encoding. -/
theorem trivialEncrypt_decrypt_roundtrip_witness :
    (trivialEncryptRun clearTfhe (sampleEnv []) [] [] (FillBytes 300 32 ++ [FheUint16])
        false).1.2 = none
    ∧ (decryptRun clearTfhe
        (trivialEncryptRun clearTfhe (sampleEnv []) [] [] (FillBytes 300 32 ++ [FheUint16])
          false).2
        [] []
        (trivialEncryptRun clearTfhe (sampleEnv []) [] [] (FillBytes 300 32 ++ [FheUint16])
          false).1.1
        false).1 = (FillBytes 300 32, none) :=
  trivialEncrypt_decrypt_roundtrip clearTfhe (sampleEnv []) [] [] false 300 FheUint16
    (Or.inr (Or.inl ⟨rfl, by decide⟩)) (Or.inl rfl) rfl (by decide)

/-! ## Gas padding -/

theorem subUint64_of_le (a b : Nat) (hb : b ≤ a) (ha : a < 2 ^ 64) : subUint64 a b = a - b := by
  unfold subUint64
  omega

theorem slice_whole (input : List Byte) (h : input.length ≤ 32) :
    slice input 0 (minInt 32 input.length) = input := by
  rw [minInt_eq_min]
  simp [slice, List.take_of_length_le, h]

/-- C18: for every gas limit `L` below `2 ^ 64`, every supplied gas `s ≤ L` and
every target below `2 ^ 64` given by at most 32 big-endian bytes,
`teePadGasRequiredGas` returns `padTo - (L - s)` when `padTo ≥ L - s` and 0 when
`padTo < L - s`. -/
theorem teePadGasRequiredGas_pads (environment : EVMEnvironment) (suppliedGas : Nat)
    (input : List Byte)
    (hL : environment.GasLimit < 2 ^ 64) (hs : suppliedGas ≤ environment.GasLimit)
    (hlen : input.length ≤ 32) (hpad : SetBytes input < 2 ^ 64) :
    (environment.GasLimit - suppliedGas ≤ SetBytes input →
      teePadGasRequiredGas environment suppliedGas input
        = SetBytes input - (environment.GasLimit - suppliedGas))
    ∧ (SetBytes input < environment.GasLimit - suppliedGas →
      teePadGasRequiredGas environment suppliedGas input = 0) := by
  have hu : Uint64 (SetBytes input) = SetBytes input := Nat.mod_eq_of_lt hpad
  have hc : subUint64 environment.GasLimit suppliedGas = environment.GasLimit - suppliedGas :=
    subUint64_of_le _ _ hs hL
  constructor
  · intro h
    simp only [teePadGasRequiredGas, slice_whole input hlen, hu, hc]
    rw [if_neg (by omega), subUint64_of_le _ _ h hpad]
  · intro h
    simp only [teePadGasRequiredGas, slice_whole input hlen, hu, hc]
    rw [if_pos (by omega)]

/-- C18 at the inputs of the test: with the gas limit 100, supplied gas 90 and target
110 give 100, (50, 90) gives 40, (40, 20) gives 0 and (10, 90) gives 0. -/
theorem teePadGasRequiredGas_pads_witness :
    (sampleEnv []).GasLimit = 100
    ∧ teePadGasRequiredGas (sampleEnv []) 90 [110] = 100
    ∧ teePadGasRequiredGas (sampleEnv []) 50 [90] = 40
    ∧ teePadGasRequiredGas (sampleEnv []) 40 [20] = 0
    ∧ teePadGasRequiredGas (sampleEnv []) 10 [90] = 0 :=
  ⟨rfl,
    (teePadGasRequiredGas_pads (sampleEnv []) 90 [110] (by decide) (by decide) (by decide)
      (by decide)).1 (by decide),
    (teePadGasRequiredGas_pads (sampleEnv []) 50 [90] (by decide) (by decide) (by decide)
      (by decide)).1 (by decide),
    (teePadGasRequiredGas_pads (sampleEnv []) 40 [20] (by decide) (by decide) (by decide)
      (by decide)).2 (by decide),
    (teePadGasRequiredGas_pads (sampleEnv []) 10 [90] (by decide) (by decide) (by decide)
      (by decide)).1 (by decide)⟩

/-! ## Selectors of the TEE methods -/

set_option maxRecDepth 100000 in
theorem teelibMethods_selectors :
    teelibMethods.map FheLibMethod.Signature
      = [0xb4aea324, 0x660aa8d7, 0x87e74e71, 0xf63e03cf, 0xbe288990, 0xc9b202c4, 0x90e3c987,
          0xa58aea2a, 0xa27eb8cb, 0xe7e2268b, 0x7d9fdc72, 0x2c5e1252, 0x97635c99, 0x9dc5109b,
          0x96df7523, 0x17f71c3b, 0x5ff146a7, 0x58b95ed7, 0x1e8447a2, 0xba6b19ee, 0x486bc203,
          0xc81d6638, 0xe18b438e, 0x56ae296e, 0x28df6c24, 0xf31a06df] := by
  decide

set_option maxRecDepth 100000 in
/-- The selector constants of `precompiles.go` are the values of `makeKeccakSignature`
on the signature strings of the source. -/
theorem fhelib_signatures :
    makeKeccakSignature "fheAdd(uint256,uint256,bytes1)" = signatureFheAdd
    ∧ makeKeccakSignature "cast(uint256,bytes1)" = signatureCast
    ∧ makeKeccakSignature "decrypt(uint256)" = signatureDecrypt
    ∧ makeKeccakSignature "fhePubKey(bytes1)" = signatureFhePubKey
    ∧ makeKeccakSignature "trivialEncrypt(uint256,bytes1)" = signatureTrivialEncrypt := by
  decide

theorem init_eq (acc : List (Nat × FheLibMethod)) :
    init acc = (teelibMethods.map (fun x => (x.Signature, x))).reverse ++ acc := by
  unfold init
  generalize teelibMethods = l
  induction l generalizing acc with
  | nil => rfl
  | cons x rest ih =>
    rw [List.foldl_cons, ih]
    simp

theorem lookup_of_mem (al : List (Nat × FheLibMethod)) (k : Nat) (v : FheLibMethod)
    (h : (al.map Prod.fst).Nodup) (hm : (k, v) ∈ al) : al.lookup k = some v := by
  induction al with
  | nil => cases hm
  | cons e rest ih =>
    obtain ⟨k1, v1⟩ := e
    rw [List.map_cons, List.nodup_cons] at h
    rcases List.mem_cons.mp hm with heq | hrest
    · cases heq
      simp [List.lookup]
    · have hk : k ∈ rest.map Prod.fst := List.mem_map.mpr ⟨(k, v), hrest, rfl⟩
      have hne : (k == k1) = false := by
        rw [beq_eq_false_iff_ne]
        intro hkk
        exact h.1 (hkk ▸ hk)
      simp only [List.lookup, hne]
      exact ih h.2 hrest

theorem lookup_of_not_mem (al : List (Nat × FheLibMethod)) (k : Nat)
    (h : k ∉ al.map Prod.fst) : al.lookup k = none := by
  induction al with
  | nil => rfl
  | cons e rest ih =>
    obtain ⟨k1, v1⟩ := e
    rw [List.map_cons, List.mem_cons, not_or] at h
    have hne : (k == k1) = false := by
      rw [beq_eq_false_iff_ne]
      exact h.1
    simp only [List.lookup, hne]
    exact ih h.2

theorem signatureToTeeLibMethod_keys :
    signatureToTeeLibMethod.map Prod.fst
      = (teelibMethods.map FheLibMethod.Signature).reverse := by
  unfold signatureToTeeLibMethod
  rw [init_eq]
  simp [List.map_reverse, Function.comp_def]

/-- C20: the 26 descriptors of `teelibMethods` have pairwise different canonical
signature strings (name followed by argument shape) and pairwise different 4-byte
selectors; hence, after `init`, `GetTeeLibMethod(m.Signature())` finds the descriptor
`m` itself for every `m` of `teelibMethods`, and finds nothing for a selector that is
not the selector of a listed method. -/
theorem teelibMethods_no_collision :
    (teelibMethods.map (fun m => m.name ++ m.argTypes)).Nodup
    ∧ (teelibMethods.map FheLibMethod.Signature).Nodup
    ∧ (∀ m ∈ teelibMethods, GetTeeLibMethod m.Signature = some m)
    ∧ (∀ signature, signature ∉ teelibMethods.map FheLibMethod.Signature →
        GetTeeLibMethod signature = none) := by
  have hsel : (teelibMethods.map FheLibMethod.Signature).Nodup := by
    rw [teelibMethods_selectors]
    decide
  have hkeys : (signatureToTeeLibMethod.map Prod.fst).Nodup := by
    rw [signatureToTeeLibMethod_keys]
    exact List.nodup_reverse.mpr hsel
  refine ⟨by decide, hsel, ?_, ?_⟩
  · intro m hm
    apply lookup_of_mem signatureToTeeLibMethod m.Signature m hkeys
    unfold signatureToTeeLibMethod
    rw [init_eq, List.append_nil, List.mem_reverse]
    exact List.mem_map.mpr ⟨m, hm, rfl⟩
  · intro signature h
    apply lookup_of_not_mem
    rw [signatureToTeeLibMethod_keys, List.mem_reverse]
    exact h

set_option maxRecDepth 100000 in
/-- C20 at concrete inputs: the selector of `teeDecrypt(uint256)` is `0x660aa8d7` and
is mapped to the descriptor of teeDecrypt; the selector `0xdeadbeef` is mapped to
nothing. -/
theorem teelibMethods_no_collision_witness :
    FheLibMethod.Signature ⟨"teeDecrypt", "(uint256)", "teeDecryptRequiredGas", "teeDecryptRun"⟩
        = 0x660aa8d7
    ∧ GetTeeLibMethod (FheLibMethod.Signature
        ⟨"teeDecrypt", "(uint256)", "teeDecryptRequiredGas", "teeDecryptRun"⟩)
        = some ⟨"teeDecrypt", "(uint256)", "teeDecryptRequiredGas", "teeDecryptRun"⟩
    ∧ GetTeeLibMethod 0xdeadbeef = none :=
  ⟨by decide,
    teelibMethods_no_collision.2.2.1
      ⟨"teeDecrypt", "(uint256)", "teeDecryptRequiredGas", "teeDecryptRun"⟩ (by decide),
    teelibMethods_no_collision.2.2.2 0xdeadbeef (by rw [teelibMethods_selectors]; decide)⟩

/-! ## Gas padding on every input -/

theorem slice_first32 (input : List Byte) :
    slice input 0 (minInt 32 input.length) = input.take 32 := by
  rw [minInt_eq_min]
  unfold slice
  rw [List.drop_zero]
  by_cases h : 32 ≤ input.length
  · rw [Nat.min_eq_left h]
  · have h1 : input.length ≤ 32 := by omega
    rw [Nat.min_eq_right h1, List.take_of_length_le (Nat.le_refl _),
      List.take_of_length_le h1]

theorem subUint64_lt (a b : Nat) : subUint64 a b < 2 ^ 64 := by
  unfold subUint64
  omega

theorem Uint64_lt (n : Nat) : Uint64 n < 2 ^ 64 := by
  unfold Uint64
  omega

theorem teePadGasRequiredGas_eq (environment : EVMEnvironment) (suppliedGas : Nat)
    (input : List Byte) :
    teePadGasRequiredGas environment suppliedGas input
      = if subUint64 environment.GasLimit suppliedGas > Uint64 (SetBytes (input.take 32))
        then 0
        else Uint64 (SetBytes (input.take 32)) - subUint64 environment.GasLimit suppliedGas := by
  simp only [teePadGasRequiredGas, slice_first32]
  split
  · rfl
  · rw [subUint64_of_le _ _ (by omega) (Uint64_lt _)]

/-- C21: for every gas limit, supplied gas and input, with `consumed` the wrapping
`uint64` difference of the gas limit and the supplied gas and `padTo` the big-endian
value of the first `min(32, len(input))` bytes of the input reduced modulo `2 ^ 64`:
`consumed + teePadGasRequiredGas = max(consumed, padTo)` over the natural numbers,
and this sum is below `2 ^ 64`. Consequently the result is at most `padTo`, two
inputs with the same first 32 bytes give the same result, and the empty input gives
0. -/
theorem teePadGasRequiredGas_tops_up (environment : EVMEnvironment) (suppliedGas : Nat)
    (input : List Byte) :
    subUint64 environment.GasLimit suppliedGas
        + teePadGasRequiredGas environment suppliedGas input
      = max (subUint64 environment.GasLimit suppliedGas) (Uint64 (SetBytes (input.take 32)))
    ∧ subUint64 environment.GasLimit suppliedGas
        + teePadGasRequiredGas environment suppliedGas input < 2 ^ 64
    ∧ teePadGasRequiredGas environment suppliedGas input ≤ Uint64 (SetBytes (input.take 32))
    ∧ (∀ other : List Byte, other.take 32 = input.take 32 →
        teePadGasRequiredGas environment suppliedGas other
          = teePadGasRequiredGas environment suppliedGas input)
    ∧ teePadGasRequiredGas environment suppliedGas [] = 0 := by
  have hc := subUint64_lt environment.GasLimit suppliedGas
  have hp := Uint64_lt (SetBytes (input.take 32))
  refine ⟨?_, ?_, ?_, ?_, ?_⟩
  · rw [teePadGasRequiredGas_eq]
    split <;> omega
  · rw [teePadGasRequiredGas_eq]
    split <;> omega
  · rw [teePadGasRequiredGas_eq]
    split <;> omega
  · intro other h
    rw [teePadGasRequiredGas_eq, teePadGasRequiredGas_eq, h]
  · rw [teePadGasRequiredGas_eq]
    have h0 : Uint64 (SetBytes (([] : List Byte).take 32)) = 0 := rfl
    rw [h0]
    split <;> omega

/-- C21 at concrete inputs, the gas limit being 100: with 101 supplied the consumed
gas wraps to `2 ^ 64 - 1` and the result is 0; a 33-byte input whose first 32 bytes
hold 200 gives, with 10 supplied, the same 110 as these 32 bytes alone. -/
theorem teePadGasRequiredGas_tops_up_witness :
    subUint64 (sampleEnv []).GasLimit 101 = 2 ^ 64 - 1
    ∧ teePadGasRequiredGas (sampleEnv []) 101 [90] = 0
    ∧ teePadGasRequiredGas (sampleEnv []) 10 (FillBytes 200 32 ++ [7])
        = teePadGasRequiredGas (sampleEnv []) 10 (FillBytes 200 32)
    ∧ teePadGasRequiredGas (sampleEnv []) 10 (FillBytes 200 32) = 110
    ∧ teePadGasRequiredGas (sampleEnv []) 10 [] = 0 :=
  ⟨by decide, by decide,
    (teePadGasRequiredGas_tops_up (sampleEnv []) 10 (FillBytes 200 32)).2.2.2.1
      (FillBytes 200 32 ++ [7]) (by decide),
    by decide,
    (teePadGasRequiredGas_tops_up (sampleEnv []) 10 []).2.2.2.2⟩

end fhevm
